import Mathlib

/-!
# nomad-sim: the node lifecycle engine of `node/node.go`

A shallow embedding of `node.go`.  The Go functions act on the host through
three collaborators that are not part of the file: package `run` (run a
command, probe a command's output, spawn a process, poll a process), package
`network` (generate a MAC address) and the file holding the persisted
registry.  Every call to one of them is recorded as an `Event` in the trace of
a `World`; what the collaborator answers is taken from a `Host`, whose answers
may depend on the whole history so far.  Strings are Unicode text; where the
bytes of a Go string matter, in the persisted registry, `GoNode` holds them.
-/

namespace NomadSim

/-! ## Data model -/

/-- The record `Node` of node.go, field for field.  `Pid` carries the struct
tag `json:"-"`. -/
structure Node where
  Server : Bool
  Binary : String
  Name : String
  Region : String
  Dc : String
  Ip : String
  Device : String
  Dir : String
  Pid : Int
deriving DecidableEq

/-- The fields of `config.Config` that node.go reads.  The package `config` is
not part of the sources; the field types are the ones node.go forces:
`Servers` and `Clients` are Go `int` (they are compared with `int` loop
counters and passed to `strconv.Itoa`), `Ips` is indexed by an `int` and
yields a string. -/
structure Config where
  Servers : Int
  Clients : Int
  Binary : String
  Prefix : String
  ServerPrefix : String
  ClientPrefix : String
  Directory : String
  Ips : List String
  Import : Bool
  Export : Bool
  Persist : Bool

/-- Go `int` on a 64-bit platform: the value of an integer expression after
two's-complement wrap-around. -/
def wrapInt (x : Int) : Int := (x + 2 ^ 63) % 2 ^ 64 - 2 ^ 63

/-- A configuration a Go program can hold: both counts are `int` values and
the pool is a slice, whose length is an `int`. -/
def Config.Representable (cfg : Config) : Prop :=
  -(2 : Int) ^ 63 ≤ cfg.Servers ∧ cfg.Servers < 2 ^ 63 ∧
  -(2 : Int) ^ 63 ≤ cfg.Clients ∧ cfg.Clients < 2 ^ 63 ∧
  (cfg.Ips.length : Int) < 2 ^ 63

/-- The function `strconv.Itoa`: the decimal text of an `int`. -/
def Itoa (i : Int) : String :=
  match i with
  | Int.ofNat n => Nat.repr n
  | Int.negSucc n => "-" ++ Nat.repr (n + 1)

/-- Value of a decimal digit character. -/
def digitValue (ch : Char) : Nat := ch.toNat - 48

/-- The number a list of decimal digit characters denotes. -/
def readDecimal (digits : List Char) : Nat :=
  digits.foldl (fun acc ch => 10 * acc + digitValue ch) 0

/-- A JSON document, as `encoding/json` sees the content of a file. -/
inductive Json where
  | null : Json
  | bool (b : Bool) : Json
  | num (text : String) : Json
  | str (s : String) : Json
  | arr (items : List Json) : Json
  | obj (members : List (String × Json)) : Json

/-- Content of a file: a JSON document, or bytes that are not JSON. -/
inductive FileData where
  | json (doc : Json) : FileData
  | malformed : FileData

/-- The errors node.go prints with `fmt.Print(err)`. -/
inductive IOError where
  | readFile (path : String) : IOError
  | writeFile (path : String) : IOError
  | unmarshal : IOError
deriving DecidableEq

/-- One interaction of node.go with the outside, in program order. -/
inductive Event where
  /-- A line written with `fmt.Println` or `fmt.Printf`. -/
  | print (line : String) : Event
  /-- An error written with `fmt.Print(err)`. -/
  | printErr (err : IOError) : Event
  /-- A call `run.Command(cmd)`. -/
  | command (cmd : String) : Event
  /-- A call `run.CommandContains(cmd, needle)` and its answer. -/
  | probe (cmd needle : String) (found : Bool) : Event
  /-- A call `run.Process(cmd)` and the process identifier it returned. -/
  | spawn (cmd : String) (pid : Int) : Event
  /-- A call `run.CheckProcess(pid)` and its answer. -/
  | check (pid : Int) (alive : Bool) : Event
  /-- A call `network.GenerateMac()` and the address it returned. -/
  | mac (address : String) : Event
  /-- A call `time.Sleep(seconds * time.Second)`. -/
  | sleep (seconds : Nat) : Event
  /-- A successful `ioutil.WriteFile(path, ...)`. -/
  | wrote (path : String) : Event
  /-- A successful `ioutil.ReadFile(path)`. -/
  | read (path : String) : Event
deriving DecidableEq

/-- The outside as node.go sees it: every interaction so far, and the files. -/
structure World where
  trace : List Event
  files : String → Option FileData

/-- The answers of the collaborators.  Each may depend on the history. -/
structure Host where
  /-- Answer of `run.CommandContains(cmd, needle)`. -/
  commandContains : List Event → String → String → Bool
  /-- Answer of `run.Process(cmd)`. -/
  process : List Event → String → Int
  /-- Answer of `run.CheckProcess(pid)`. -/
  checkProcess : List Event → Int → Bool
  /-- Answer of `network.GenerateMac()`. -/
  generateMac : List Event → String
  /-- Whether `ioutil.WriteFile(path, ...)` succeeds. -/
  writeFileOk : List Event → String → Bool

/-- Append one event to the trace. -/
def World.emit (w : World) (e : Event) : World :=
  { w with trace := w.trace ++ [e] }

/-- A failure of the Go run-time that ends a call of node.go, which never
recovers from one. -/
inductive RuntimePanic where
  /-- Raised by `make([]T, n)` for a length that is negative or too large:
  "makeslice: len out of range". -/
  | makeSliceLen : RuntimePanic
  /-- Raised by `xs[i]`: "index out of range [i] with length n". -/
  | indexOutOfRange (index length : Nat) : RuntimePanic
  /-- The heap cannot grow: "fatal error: runtime: out of memory".  The run-time
  ends the program at once. -/
  | outOfMemory : RuntimePanic
deriving DecidableEq

/-- The text Go prints for a run-time panic. -/
def RuntimePanic.message : RuntimePanic → String
  | RuntimePanic.makeSliceLen => "runtime error: makeslice: len out of range"
  | RuntimePanic.indexOutOfRange index length =>
    "runtime error: index out of range [" ++ Nat.repr index ++ "] with length " ++
      Nat.repr length
  | RuntimePanic.outOfMemory => "fatal error: runtime: out of memory"

/-- How a call of a Go function ends: it returns a value, or a run-time panic
unwinds it.  Either way the world is the one reached at that point.  No
function of node.go has an error result. -/
inductive Outcome (α : Type) where
  | returned (value : α) (world : World) : Outcome α
  | panicked (p : RuntimePanic) (world : World) : Outcome α

/-- The world in which a call ended. -/
def Outcome.world {α : Type} : Outcome α → World
  | Outcome.returned _ w => w
  | Outcome.panicked _ w => w

/-- The returned value, when the call returned. -/
def Outcome.value? {α : Type} : Outcome α → Option α
  | Outcome.returned v _ => some v
  | Outcome.panicked _ _ => none

/-- The zero value of `Node`, as `make([]Node, n)` and `json.Unmarshal` create
it. -/
def zeroNode : Node :=
  { Server := false, Binary := "", Name := "", Region := "", Dc := "", Ip := "",
    Device := "", Dir := "", Pid := 0 }

/-! ## Printing and persistence -/

/-- The function `printNode`: one `fmt.Printf` line. -/
def printNode (node : Node) (w : World) : World :=
  w.emit (Event.print (" - " ++ node.Region ++ "." ++ node.Dc ++ "." ++ node.Name ++ " [ " ++
    node.Ip ++ " : " ++ node.Device ++ " : " ++ node.Dir ++ " ]\n"))

/-- What `json.MarshalIndent` makes of one `Node`: an object with the eight
exported fields in declaration order.  `Pid` is tagged `json:"-"` and left
out. -/
def marshalNode (node : Node) : Json :=
  Json.obj [("Server", Json.bool node.Server), ("Binary", Json.str node.Binary),
    ("Name", Json.str node.Name), ("Region", Json.str node.Region),
    ("Dc", Json.str node.Dc), ("Ip", Json.str node.Ip),
    ("Device", Json.str node.Device), ("Dir", Json.str node.Dir)]

/-- What `json.MarshalIndent(nodes, ...)` makes of a `[]Node`: always a
document, never an error. -/
def marshalNodes (nodes : List Node) : Json :=
  Json.arr (nodes.map marshalNode)

/-- Store a string member into a field: a JSON string is stored, `null` leaves
the field alone, any other value is a type error that leaves the field alone. -/
def decodeString (v : Json) (old : String) : String × Bool :=
  match v with
  | Json.str s => (s, true)
  | Json.null => (old, true)
  | _ => (old, false)

/-- Store a boolean member into a field, as `decodeString` does for strings. -/
def decodeBool (v : Json) (old : Bool) : Bool × Bool :=
  match v with
  | Json.bool b => (b, true)
  | Json.null => (old, true)
  | _ => (old, false)

/-- One character of a key as `json.Unmarshal` folds it to compare it with
a field name: an ASCII capital becomes small, and the two characters outside
ASCII that Unicode simple case folding joins to an ASCII letter, U+017F (long
s) and U+212A (Kelvin sign), become `s` and `k`. -/
def foldChar (ch : Char) : Char :=
  if ch = Char.ofNat 0x17F then Char.ofNat 0x73
  else if ch = Char.ofNat 0x212A then Char.ofNat 0x6B
  else ch.toLower

/-- A key folded character by character.  The field names of `Node` are ASCII,
so a key matches one under Unicode simple case folding exactly when its fold
is the field name in small letters. -/
def foldKey (key : String) : String := String.mk (key.data.map foldChar)

/-- One member of a JSON object stored into a `Node` by `json.Unmarshal`: the
key selects an exported field under case folding, a key that
selects none is skipped, and `Pid` is never selected.  The flag tells whether
the member was free of type errors. -/
def unmarshalMember (node : Node) (member : String × Json) : Node × Bool :=
  let key := foldKey member.1
  if key = "server" then
    let r := decodeBool member.2 node.Server
    ({ node with Server := r.1 }, r.2)
  else if key = "binary" then
    let r := decodeString member.2 node.Binary
    ({ node with Binary := r.1 }, r.2)
  else if key = "name" then
    let r := decodeString member.2 node.Name
    ({ node with Name := r.1 }, r.2)
  else if key = "region" then
    let r := decodeString member.2 node.Region
    ({ node with Region := r.1 }, r.2)
  else if key = "dc" then
    let r := decodeString member.2 node.Dc
    ({ node with Dc := r.1 }, r.2)
  else if key = "ip" then
    let r := decodeString member.2 node.Ip
    ({ node with Ip := r.1 }, r.2)
  else if key = "device" then
    let r := decodeString member.2 node.Device
    ({ node with Device := r.1 }, r.2)
  else if key = "dir" then
    let r := decodeString member.2 node.Dir
    ({ node with Dir := r.1 }, r.2)
  else (node, true)

/-- All members of an object stored in order into a node. -/
def unmarshalMembers (node : Node) : List (String × Json) → Node × Bool
  | [] => (node, true)
  | m :: rest =>
    let r := unmarshalMember node m
    let r2 := unmarshalMembers r.1 rest
    (r2.1, r.2 && r2.2)

/-- One element of a JSON array stored into a fresh `Node`. -/
def unmarshalNode (item : Json) : Node × Bool :=
  match item with
  | Json.obj members => unmarshalMembers zeroNode members
  | Json.null => (zeroNode, true)
  | _ => (zeroNode, false)

/-- What `json.Unmarshal(file, &nodes)` leaves in `nodes`, which starts as
`nil`, and whether it reported no error.  An array gives one node per element;
`null` leaves `nil`; any other document is a type error and leaves `nil`. -/
def unmarshalNodes (doc : Json) : List Node × Bool :=
  match doc with
  | Json.arr items => ((items.map unmarshalNode).map Prod.fst,
      (items.map unmarshalNode).all Prod.snd)
  | Json.null => ([], true)
  | _ => ([], false)

/-- The function `exportNodes`.  `json.MarshalIndent` cannot fail on a
`[]Node`; a failed write is reported and changes no file. -/
def exportNodes (host : Host) (cfg : Config) (nodes : List Node) (w : World) : World :=
  let node_json := marshalNodes nodes
  let path := cfg.Directory ++ "/nodes.json"
  if host.writeFileOk w.trace path then
    { trace := w.trace ++ [Event.wrote path],
      files := fun p => if p = path then some (FileData.json node_json) else w.files p }
  else
    (w.emit (Event.print "   ERROR: Cannot Export Nodes\n")).emit
      (Event.printErr (IOError.writeFile path))

/-- The second half of `importNodes`: `json.Unmarshal` of the bytes read, with
the report of its error. -/
def importDecode (data : Option FileData) (w : World) : List Node × World :=
  match data with
  | some (FileData.json doc) =>
    let r := unmarshalNodes doc
    if r.2 then (r.1, w)
    else (r.1, (w.emit (Event.print "   ERROR: Cannot Import Nodes\n")).emit
      (Event.printErr IOError.unmarshal))
  | _ => ([], (w.emit (Event.print "   ERROR: Cannot Import Nodes\n")).emit
      (Event.printErr IOError.unmarshal))

/-- The function `importNodes`.  A failed read is reported and leaves no
bytes, which `json.Unmarshal` then rejects. -/
def importNodes (cfg : Config) (w : World) : List Node × World :=
  let path := cfg.Directory ++ "/nodes.json"
  match w.files path with
  | none =>
    importDecode none ((w.emit (Event.print "   ERROR: Cannot Import Nodes\n")).emit
      (Event.printErr (IOError.readFile path)))
  | some data => importDecode (some data) (w.emit (Event.read path))

/-! ## Go strings in the persisted registry

A Go string is a sequence of bytes, which need not be UTF-8.  A JSON document
holds Unicode text: `json.Marshal` writes a Go string as the text its bytes
spell, with U+FFFD in the place of every byte that is not part of a
well-formed UTF-8 sequence, and `json.Unmarshal` stores a text as its UTF-8
bytes. -/

/-- Lowest second byte of a well-formed UTF-8 sequence with first byte `b0`. -/
def secondLow (b0 : Nat) : Nat :=
  if b0 = 0xE0 then 0xA0 else if b0 = 0xF0 then 0x90 else 0x80

/-- Highest second byte of a well-formed UTF-8 sequence with first byte `b0`. -/
def secondHigh (b0 : Nat) : Nat :=
  if b0 = 0xED then 0x9F else if b0 = 0xF4 then 0x8F else 0xBF

/-- The function `utf8.DecodeRune`: the code point of the well-formed UTF-8
sequence the bytes start with, and the bytes after it; `none` when they start
with no such sequence. -/
def decodeRune : List Nat → Option (Nat × List Nat)
  | [] => none
  | b0 :: rest =>
    if b0 < 0x80 then some (b0, rest)
    else if 0xC2 ≤ b0 ∧ b0 ≤ 0xDF then
      match rest with
      | b1 :: after =>
        if 0x80 ≤ b1 ∧ b1 ≤ 0xBF then some ((b0 - 0xC0) * 64 + (b1 - 0x80), after)
        else none
      | _ => none
    else if 0xE0 ≤ b0 ∧ b0 ≤ 0xEF then
      match rest with
      | b1 :: b2 :: after =>
        if secondLow b0 ≤ b1 ∧ b1 ≤ secondHigh b0 ∧ 0x80 ≤ b2 ∧ b2 ≤ 0xBF then
          some ((b0 - 0xE0) * 4096 + (b1 - 0x80) * 64 + (b2 - 0x80), after)
        else none
      | _ => none
    else if 0xF0 ≤ b0 ∧ b0 ≤ 0xF4 then
      match rest with
      | b1 :: b2 :: b3 :: after =>
        if secondLow b0 ≤ b1 ∧ b1 ≤ secondHigh b0 ∧ 0x80 ≤ b2 ∧ b2 ≤ 0xBF ∧
            0x80 ≤ b3 ∧ b3 ≤ 0xBF then
          some ((b0 - 0xF0) * 262144 + (b1 - 0x80) * 4096 + (b2 - 0x80) * 64 + (b3 - 0x80),
            after)
        else none
      | _ => none
    else none

/-- The characters `json.Marshal` writes for a Go string, reading at most
`fuel` runes: each well-formed sequence gives its character, and a byte that
starts none gives U+FFFD and is skipped alone. -/
def coerceRunes : Nat → List Nat → List Char
  | 0, _ => []
  | fuel + 1, bytes =>
    match bytes with
    | [] => []
    | _ :: rest =>
      match decodeRune bytes with
      | some (v, after) => Char.ofNat v :: coerceRunes fuel after
      | none => Char.ofNat 0xFFFD :: coerceRunes fuel rest

/-- The text `json.Marshal` writes for a Go string.  Every rune takes at least
one byte, so the number of bytes is fuel enough. -/
def toText (bytes : List Nat) : String := String.mk (coerceRunes bytes.length bytes)

/-- The UTF-8 bytes of a code point. -/
def encodeRune (v : Nat) : List Nat :=
  if v < 0x80 then [v]
  else if v < 0x800 then [0xC0 + v / 64, 0x80 + v % 64]
  else if v < 0x10000 then [0xE0 + v / 4096, 0x80 + v / 64 % 64, 0x80 + v % 64]
  else [0xF0 + v / 262144, 0x80 + v / 4096 % 64, 0x80 + v / 64 % 64, 0x80 + v % 64]

/-- The UTF-8 bytes of a list of characters. -/
def utf8Runes : List Char → List Nat
  | [] => []
  | ch :: rest => encodeRune ch.toNat ++ utf8Runes rest

/-- The Go string `json.Unmarshal` stores for a text: its UTF-8 bytes. -/
def utf8Bytes (text : String) : List Nat := utf8Runes text.data

/-- The bytes are valid UTF-8: they are the UTF-8 bytes of some text. -/
def IsUTF8 (bytes : List Nat) : Prop := ∃ text : String, utf8Bytes text = bytes

/-- The record `Node` as the Go program holds it, its strings as bytes. -/
structure GoNode where
  Server : Bool
  Binary : List Nat
  Name : List Nat
  Region : List Nat
  Dc : List Nat
  Ip : List Nat
  Device : List Nat
  Dir : List Nat
  Pid : Int
deriving DecidableEq

/-- Every string of the node is valid UTF-8. -/
def GoNode.IsUTF8 (node : GoNode) : Prop :=
  NomadSim.IsUTF8 node.Binary ∧ NomadSim.IsUTF8 node.Name ∧ NomadSim.IsUTF8 node.Region ∧
    NomadSim.IsUTF8 node.Dc ∧ NomadSim.IsUTF8 node.Ip ∧ NomadSim.IsUTF8 node.Device ∧
    NomadSim.IsUTF8 node.Dir

/-- The node as `json.Marshal` reads it: every string as the text it writes. -/
def GoNode.asText (node : GoNode) : Node :=
  { Server := node.Server, Binary := toText node.Binary, Name := toText node.Name,
    Region := toText node.Region, Dc := toText node.Dc, Ip := toText node.Ip,
    Device := toText node.Device, Dir := toText node.Dir, Pid := node.Pid }

/-- The node as `json.Unmarshal` stores it: every text as its UTF-8 bytes. -/
def Node.asBytes (node : Node) : GoNode :=
  { Server := node.Server, Binary := utf8Bytes node.Binary, Name := utf8Bytes node.Name,
    Region := utf8Bytes node.Region, Dc := utf8Bytes node.Dc, Ip := utf8Bytes node.Ip,
    Device := utf8Bytes node.Device, Dir := utf8Bytes node.Dir, Pid := node.Pid }

/-- The function `exportNodes` on a registry of Go strings. -/
def exportNodesBytes (host : Host) (cfg : Config) (nodes : List GoNode) (w : World) : World :=
  exportNodes host cfg (nodes.map GoNode.asText) w

/-- The function `importNodes` with its result as Go strings. -/
def importNodesBytes (cfg : Config) (w : World) : List GoNode × World :=
  ((importNodes cfg w).1.map Node.asBytes, (importNodes cfg w).2)

/-- A Go node without its process identifier. -/
def GoNode.withoutPid (node : GoNode) : GoNode := { node with Pid := 0 }

/-! ## MakeNodes -/

/-- State of the two loops of `MakeNodes`: the slice and the marker. -/
structure MakeState where
  nodes : List Node
  marker : Nat

/-- Body of one iteration of a loop of `MakeNodes`, for the role `server` with
name sub-prefix `rolePrefix` and loop counter `k`.  The two loops differ in
nothing else that can be observed.  The first statement indexes `nodes`, a
later one indexes `cfg.Ips`; either raises a panic when out of range, before
the node is printed. -/
def makeNode (cfg : Config) (server : Bool) (rolePrefix : String) (k : Nat)
    (st : MakeState) (w : World) : Outcome MakeState :=
  if st.marker < st.nodes.length then
    match cfg.Ips[st.marker]? with
    | none => Outcome.panicked (RuntimePanic.indexOutOfRange st.marker cfg.Ips.length) w
    | some ip =>
      let name := cfg.Prefix ++ rolePrefix ++ Itoa k
      let node : Node :=
        { Server := server, Binary := cfg.Binary, Name := name, Region := "global",
          Dc := "dc1", Ip := ip, Device := cfg.Prefix ++ "eth" ++ Itoa st.marker,
          Dir := cfg.Directory ++ "/" ++ name, Pid := 0 }
      Outcome.returned { nodes := st.nodes.set st.marker node, marker := st.marker + 1 }
        (printNode node w)
  else
    Outcome.panicked (RuntimePanic.indexOutOfRange st.marker st.nodes.length) w

/-- A loop `for k := start; k < start + count; k++` around `makeNode`. -/
def makeLoop (cfg : Config) (server : Bool) (rolePrefix : String) :
    Nat → Nat → MakeState → World → Outcome MakeState
  | 0, _, st, w => Outcome.returned st w
  | count + 1, k, st, w =>
    match makeNode cfg server rolePrefix k st w with
    | Outcome.returned st2 w2 => makeLoop cfg server rolePrefix count (k + 1) st2 w2
    | Outcome.panicked p w2 => Outcome.panicked p w2

/-- The function `MakeNodes`.  A loop `for s := 0; s < cfg.Servers; s++` runs
`cfg.Servers` times, and not at all when the count is not positive.  Here
`make` grants every length that is not negative; `MakeNodesOn` puts the limits
of the machine in front. -/
def MakeNodes (host : Host) (cfg : Config) (w : World) : Outcome (List Node) :=
  let n := wrapInt (cfg.Servers + cfg.Clients)
  if n < 0 then Outcome.panicked RuntimePanic.makeSliceLen w
  else
    let nodes := List.replicate n.toNat zeroNode
    if cfg.Import then
      let r := importNodes cfg w
      let w1 := r.2.emit (Event.print "Importing Nodes...\n")
      Outcome.returned r.1 (r.1.foldl (fun acc node => printNode node acc) w1)
    else
      match makeLoop cfg true cfg.ServerPrefix cfg.Servers.toNat 0
          { nodes := nodes, marker := 0 } (w.emit (Event.print "Mapping Servers...\n")) with
      | Outcome.panicked p w1 => Outcome.panicked p w1
      | Outcome.returned st1 w1 =>
        match makeLoop cfg false cfg.ClientPrefix cfg.Clients.toNat 0 st1
            (w1.emit (Event.print "Mapping Clients...\n")) with
        | Outcome.panicked p w2 => Outcome.panicked p w2
        | Outcome.returned st2 w2 =>
          if cfg.Export then Outcome.returned st2.nodes (exportNodes host cfg st2.nodes w2)
          else Outcome.returned st2.nodes w2

/-! ## MakeNodes on a machine -/

/-- Size in bytes of one `Node` on a 64-bit platform: a `bool` padded to a word,
seven string headers of two words each, and an `int`. -/
def nodeSize : Nat := 128

/-- Size in bytes of the largest block the Go run-time grants on a 64-bit
platform with 48-bit heap addresses. -/
def maxAlloc : Nat := 2 ^ 48

/-- The memory of the machine the program runs on. -/
structure Machine where
  /-- Whether the heap can hold one more block of this many bytes. -/
  holds : Nat → Bool

/-- The allocation `make([]Node, n)` as the run-time function `makeslice`
performs it; `none` stands for a granted slice.  A negative length, or one
whose block exceeds `maxAlloc`, raises the length panic; an empty block is
always granted; any other block is granted when the heap can hold it, and
ends the program with out of memory when it cannot. -/
def makeSlice (machine : Machine) (n : Int) : Option RuntimePanic :=
  if n < 0 ∨ maxAlloc < n.toNat * nodeSize then some RuntimePanic.makeSliceLen
  else if n.toNat * nodeSize = 0 ∨ machine.holds (n.toNat * nodeSize) = true then none
  else some RuntimePanic.outOfMemory

/-- The function `MakeNodes` on a machine: its first statement
`make([]Node, cfg.Servers+cfg.Clients)` as the run-time performs it, before
anything is printed, and once the slice is granted the rest of the function as
`MakeNodes` gives it. -/
def MakeNodesOn (machine : Machine) (host : Host) (cfg : Config) (w : World) :
    Outcome (List Node) :=
  match makeSlice machine (wrapInt (cfg.Servers + cfg.Clients)) with
  | some p => Outcome.panicked p w
  | none => MakeNodes host cfg w

/-! ## Resources and processes -/

/-- Run `run.Command(cmd)`. -/
def runCommand (cmd : String) (w : World) : World :=
  w.emit (Event.command cmd)

/-- The function `makeNodeResourcesNetwork`. -/
def makeNodeResourcesNetwork (host : Host) (_cfg : Config) (node : Node) (w : World) : World :=
  let w1 := runCommand ("ip link add " ++ node.Device ++ " type dummy") w
  let address := host.generateMac w1.trace
  let w2 := w1.emit (Event.mac address)
  let w3 := runCommand ("ip link set dev " ++ node.Device ++ " address " ++ address) w2
  let w4 := runCommand ("ip addr add " ++ node.Ip ++ "/24 brd + dev " ++ node.Device ++
    " label " ++ node.Device ++ ":0") w3
  runCommand ("ip link set dev " ++ node.Device ++ " up") w4

/-- The function `cleanNodeResources`. -/
def cleanNodeResources (_cfg : Config) (node : Node) (w : World) : World :=
  let w1 := runCommand ("ip addr del " ++ node.Ip ++ "/24 brd + dev " ++ node.Device ++
    " label " ++ node.Device ++ ":0") w
  let w2 := runCommand ("ip link delete " ++ node.Device ++ " type dummy") w1
  let w3 := w2.emit (Event.sleep 3)
  runCommand ("rm -rf " ++ node.Dir) w3

/-- The function `makeNodeResources`. -/
def makeNodeResources (host : Host) (cfg : Config) (node : Node) (w : World) : World :=
  let found := host.commandContains w.trace "ip a" node.Ip
  let w1 := w.emit (Event.probe "ip a" node.Ip found)
  let w2 :=
    if found then
      if !cfg.Persist then
        makeNodeResourcesNetwork host cfg node (cleanNodeResources cfg node w1)
      else w1
    else makeNodeResourcesNetwork host cfg node w1
  runCommand ("mkdir -p " ++ node.Dir) w2

/-- How a call that waits on the host stands after a bounded number of polls:
it has returned, or it is still polling; either way with the world reached. -/
inductive Wait where
  | returned (world : World) : Wait
  | waiting (world : World) : Wait

/-- The world reached by a waiting call. -/
def Wait.world : Wait → World
  | Wait.returned w => w
  | Wait.waiting w => w

/-- Whether the call has returned. -/
def Wait.isReturned : Wait → Bool
  | Wait.returned _ => true
  | Wait.waiting _ => false

/-- The loop `for run.CheckProcess(pid) { time.Sleep(3 * time.Second) }`, observed
for at most `fuel` polls. -/
def pollProcess (host : Host) (pid : Int) : Nat → World → Wait
  | 0, w => Wait.waiting w
  | fuel + 1, w =>
    let alive := host.checkProcess w.trace pid
    let w1 := w.emit (Event.check pid alive)
    if alive then pollProcess host pid fuel (w1.emit (Event.sleep 3))
    else Wait.returned w1

/-- The function `cleanNodeProcess`, each poll loop observed for at most `fuel`
polls. -/
def cleanNodeProcess (host : Host) (fuel : Nat) (_cfg : Config) (node : Node)
    (w : World) : Wait :=
  pollProcess host node.Pid fuel (runCommand ("kill -2 " ++ Itoa node.Pid) w)

/-- The body both loops of `CleanNodes` run for a node of their role. -/
def cleanNode (host : Host) (fuel : Nat) (cfg : Config) (node : Node) (w : World) : Wait :=
  match cleanNodeProcess host fuel cfg node
      (w.emit (Event.print (" - Removing " ++ node.Name ++ "\n"))) with
  | Wait.waiting w1 => Wait.waiting w1
  | Wait.returned w1 =>
    if !cfg.Persist then Wait.returned (cleanNodeResources cfg node w1)
    else Wait.returned w1

/-- One loop of `CleanNodes` over the registry: the first loop handles the
nodes with `Server = false`, the second the nodes with `Server = true`. -/
def cleanPass (host : Host) (fuel : Nat) (cfg : Config) (server : Bool) :
    List Node → World → Wait
  | [], w => Wait.returned w
  | node :: rest, w =>
    if node.Server = server then
      match cleanNode host fuel cfg node w with
      | Wait.waiting w1 => Wait.waiting w1
      | Wait.returned w1 => cleanPass host fuel cfg server rest w1
    else cleanPass host fuel cfg server rest w

/-- The function `CleanNodes`. -/
def CleanNodes (host : Host) (fuel : Nat) (cfg : Config) (nodes : List Node)
    (w : World) : Wait :=
  match cleanPass host fuel cfg false nodes (w.emit (Event.print "Cleaning Nodes...\n")) with
  | Wait.waiting w1 => Wait.waiting w1
  | Wait.returned w1 => cleanPass host fuel cfg true nodes w1

/-- The function `CleanNodeResources`. -/
def CleanNodeResources (cfg : Config) (nodes : List Node) (w : World) : World :=
  nodes.foldl (fun acc node =>
      cleanNodeResources cfg node (acc.emit (Event.print (" - Removing " ++ node.Name ++ "\n"))))
    (w.emit (Event.print "Cleaning Node Resources...\n"))

/-- The inner loop of the server branch of `BuildNodes`: one ` -join=` flag per
node with `Server = true`, in registry order. -/
def appendJoins (nodes : List Node) (nomad : String) : String :=
  nodes.foldl (fun acc peer => if peer.Server then acc ++ (" -join=" ++ peer.Ip) else acc) nomad

/-- The inner loop of the client branch of `BuildNodes`: one ` -servers=` flag
per node with `Server = true`, in registry order. -/
def appendServers (nodes : List Node) (nomad : String) : String :=
  nodes.foldl
    (fun acc peer => if peer.Server then acc ++ (" -servers=" ++ peer.Ip ++ ":4647") else acc)
    nomad

/-- The command line the server branch of `BuildNodes` assembles for `node`. -/
def serverCommand (cfg : Config) (nodes : List Node) (node : Node) : String :=
  let nomad := node.Binary ++ " agent "
  let nomad := nomad ++ (" -node=" ++ node.Name)
  let nomad := nomad ++ (" -bind=" ++ node.Ip)
  let nomad := nomad ++ (" -bootstrap-expect=" ++ Itoa cfg.Servers)
  let nomad := nomad ++ (" -data-dir=" ++ node.Dir)
  let nomad := nomad ++ (" -dc=" ++ node.Dc)
  let nomad := appendJoins nodes nomad
  let nomad := nomad ++ (" -network-interface=" ++ node.Device)
  let nomad := nomad ++ (" -region=" ++ node.Region)
  nomad ++ " -server"

/-- The command line the client branch of `BuildNodes` assembles for `node`. -/
def clientCommand (_cfg : Config) (nodes : List Node) (node : Node) : String :=
  let nomad := node.Binary ++ " agent "
  let nomad := nomad ++ (" -node=" ++ node.Name)
  let nomad := nomad ++ (" -bind=" ++ node.Ip)
  let nomad := nomad ++ " -client"
  let nomad := nomad ++ (" -data-dir=" ++ node.Dir)
  let nomad := nomad ++ (" -dc=" ++ node.Dc)
  let nomad := appendServers nodes nomad
  let nomad := nomad ++ (" -network-interface=" ++ node.Device)
  nomad ++ (" -region=" ++ node.Region)

/-- Body of the loop of `BuildNodes` at index `i`: resources, then the agent
process, whose identifier is stored into `nodes[i].Pid`.  The loop keeps
`i < len(nodes)`, so the index is in range. -/
def buildNode (host : Host) (cfg : Config) (i : Nat) (nodes : List Node)
    (w : World) : List Node × World :=
  match nodes[i]? with
  | none => (nodes, w)
  | some node =>
    let w1 := w.emit (Event.print (" - Starting " ++ node.Name ++ "\n"))
    let w2 := makeNodeResources host cfg node w1
    if node.Server then
      let nomad := serverCommand cfg nodes node
      let pid := host.process w2.trace nomad
      let w3 := w2.emit (Event.spawn nomad pid)
      (nodes.set i { node with Pid := pid }, w3.emit (Event.sleep 3))
    else
      let nomad := clientCommand cfg nodes node
      let pid := host.process w2.trace nomad
      (nodes.set i { node with Pid := pid }, w2.emit (Event.spawn nomad pid))

/-- The loop `for i := start; i < start + count; i++` around `buildNode`. -/
def buildLoop (host : Host) (cfg : Config) : Nat → Nat → List Node → World → List Node × World
  | 0, _, nodes, w => (nodes, w)
  | count + 1, i, nodes, w =>
    let r := buildNode host cfg i nodes w
    buildLoop host cfg count (i + 1) r.1 r.2

/-- The function `BuildNodes`.  It returns nothing; the slice it was handed
shares its elements with the caller, who sees the stored process identifiers,
so the model returns the slice together with the world. -/
def BuildNodes (host : Host) (cfg : Config) (nodes : List Node) (w : World) :
    List Node × World :=
  buildLoop host cfg nodes.length 0 nodes (w.emit (Event.print "Building Nodes...\n"))

/-! ## Reading a trace -/

/-- The commands handed to `run.Command`, in order. -/
def commandsOf : List Event → List String
  | [] => []
  | Event.command cmd :: rest => cmd :: commandsOf rest
  | _ :: rest => commandsOf rest

/-- The command lines handed to `run.Process`, in order. -/
def spawnsOf : List Event → List String
  | [] => []
  | Event.spawn cmd _ :: rest => cmd :: spawnsOf rest
  | _ :: rest => spawnsOf rest

/-- Whether an event touches a resource of the host: a command, a probe, a
process, a poll, or a file.  Printing, sleeping and drawing a MAC address do
not. -/
def Event.touchesHost : Event → Bool
  | Event.print _ => false
  | Event.printErr _ => false
  | Event.sleep _ => false
  | Event.mac _ => false
  | _ => true

/-! ## The registry a fresh build produces -/

/-- The node `makeNode` writes at position `m` in iteration `k` of a loop. -/
def builtNode (cfg : Config) (server : Bool) (rolePrefix : String) (k m : Nat) : Node :=
  { Server := server, Binary := cfg.Binary, Name := cfg.Prefix ++ rolePrefix ++ Itoa k,
    Region := "global", Dc := "dc1", Ip := (cfg.Ips[m]?).getD "",
    Device := cfg.Prefix ++ "eth" ++ Itoa m,
    Dir := cfg.Directory ++ "/" ++ (cfg.Prefix ++ rolePrefix ++ Itoa k), Pid := 0 }

/-- The nodes a loop of `count` iterations writes, starting with counter `k` at
position `m`. -/
def builtList (cfg : Config) (server : Bool) (rolePrefix : String) : Nat → Nat → Nat → List Node
  | 0, _, _ => []
  | count + 1, k, m => builtNode cfg server rolePrefix k m ::
      builtList cfg server rolePrefix count (k + 1) (m + 1)

/-- The registry of `s` servers followed by `c` clients. -/
def freshNodes (cfg : Config) (s c : Nat) : List Node :=
  builtList cfg true cfg.ServerPrefix s 0 0 ++ builtList cfg false cfg.ClientPrefix c 0 s

/-- The second world continues the first with events that touch no resource of
the host, and has the same files. -/
def QuietStep (w w2 : World) : Prop :=
  w2.files = w.files ∧
    ∃ extra : List Event, w2.trace = w.trace ++ extra ∧ ∀ e ∈ extra, e.touchesHost = false

/-! ## The commands a teardown issues -/

/-- The command `cleanNodeProcess` issues for a node. -/
def killCommand (node : Node) : String := "kill -2 " ++ Itoa node.Pid

/-- The three commands `cleanNodeResources` issues for a node. -/
def releaseCommands (node : Node) : List String :=
  ["ip addr del " ++ node.Ip ++ "/24 brd + dev " ++ node.Device ++ " label " ++
      node.Device ++ ":0",
   "ip link delete " ++ node.Device ++ " type dummy",
   "rm -rf " ++ node.Dir]

/-- The commands `CleanNodes` issues for one node: the stop step, then, unless
resources persist, the release of its resources. -/
def stopCommands (cfg : Config) (node : Node) : List String :=
  killCommand node :: (if cfg.Persist then [] else releaseCommands node)

/-- The commands of `stopCommands` for each node of a list, in order. -/
def stopScript (cfg : Config) : List Node → List String
  | [] => []
  | node :: rest => stopCommands cfg node ++ stopScript cfg rest

/-- The client nodes of a registry, in registry order. -/
def clientsOf (nodes : List Node) : List Node := nodes.filter (fun node => !node.Server)

/-- The server nodes of a registry, in registry order. -/
def serversOf (nodes : List Node) : List Node := nodes.filter (fun node => node.Server)

/-- Whether a command is a stop step: its text starts with `kill -2 `. -/
def isStop (cmd : String) : Bool := "kill -2 ".data.isPrefixOf cmd.data

/-- The stop steps among the commands of a trace, in order. -/
def stopsOf (trace : List Event) : List String := (commandsOf trace).filter isStop

/-- The history after `k` more polls of `pid` that found it alive, each
followed by the sleep of the poll loop. -/
def waitedHistory (pid : Int) : Nat → List Event → List Event
  | 0, history => history
  | k + 1, history =>
    waitedHistory pid k (history ++ [Event.check pid true, Event.sleep 3])

/-- Every wait for a process ends within `bound` polls: from any history, one
of the first `bound` polls of the loop finds the process gone. -/
def Host.StopsWithin (host : Host) (bound : Nat) : Prop :=
  ∀ (history : List Event) (pid : Int),
    ∃ k, k < bound ∧ host.checkProcess (waitedHistory pid k history) pid = false

/-- The four commands `makeNodeResourcesNetwork` issues for a node, with the
MAC address it drew. -/
def provisionCommands (node : Node) (address : String) : List String :=
  ["ip link add " ++ node.Device ++ " type dummy",
   "ip link set dev " ++ node.Device ++ " address " ++ address,
   "ip addr add " ++ node.Ip ++ "/24 brd + dev " ++ node.Device ++ " label " ++
      node.Device ++ ":0",
   "ip link set dev " ++ node.Device ++ " up"]

/-- The commands of one call of `makeNodeResources`, by the answer `found` of
the address probe: with the address in use and no persistence, the release
sequence and then the provisioning sequence; with the address in use and
persistence, nothing; with the address free, the provisioning sequence; and
in every case `mkdir -p <Dir>` last. -/
def resourceScript (cfg : Config) (node : Node) (found : Bool) (address : String) :
    List String :=
  (if found then
      if cfg.Persist then [] else releaseCommands node ++ provisionCommands node address
    else provisionCommands node address) ++ ["mkdir -p " ++ node.Dir]

/-! ## The actions a build performs -/

/-- What a build does to the host: it runs a command to completion, or it
starts an agent process. -/
inductive Action where
  | ran (cmd : String) : Action
  | started (cmd : String) : Action
deriving DecidableEq

/-- The commands run and the processes started, in order. -/
def actionsOf : List Event → List Action
  | [] => []
  | Event.command cmd :: rest => Action.ran cmd :: actionsOf rest
  | Event.spawn cmd _ :: rest => Action.started cmd :: actionsOf rest
  | _ :: rest => actionsOf rest

/-- The command line `BuildNodes` assembles for a node, by its role. -/
def agentCommand (cfg : Config) (nodes : List Node) (node : Node) : String :=
  if node.Server then serverCommand cfg nodes node else clientCommand cfg nodes node

/-- The actions of a build over a list of nodes, each with the answer of its
address probe and the MAC address drawn for it: for every node in order, the
commands of its `makeNodeResources`, then the start of its agent. -/
def buildScript (cfg : Config) (all : List Node) : List (Node × Bool × String) → List Action
  | [] => []
  | (node, found, address) :: rest =>
    (resourceScript cfg node found address).map Action.ran ++
      Action.started (agentCommand cfg all node) :: buildScript cfg all rest

/-- The ` -join=` flags of a server command line: one per server node of the
registry, in registry order. -/
def joinFlags : List Node → String
  | [] => ""
  | node :: rest => (if node.Server then " -join=" ++ node.Ip else "") ++ joinFlags rest

/-- The strings of a list, one after the other. -/
def concatStrings : List String → String
  | [] => ""
  | first :: rest => first ++ concatStrings rest

/-- The ` -join=` flags of a registry as a list: one per server node, in
registry order. -/
def joinFlagList (nodes : List Node) : List String :=
  (serversOf nodes).map (fun node => " -join=" ++ node.Ip)

/-- A node without its process identifier. -/
def withoutPid (node : Node) : Node := { node with Pid := 0 }

/-! ## Concrete inputs -/

/-- A host on which no address is in use, every process is gone at the first
poll, and every write succeeds. -/
def idleHost : Host :=
  { commandContains := fun _ _ _ => false,
    process := fun history _ => 1000 + history.length,
    checkProcess := fun _ _ => false,
    generateMac := fun _ => "02:00:00:00:00:01",
    writeFileOk := fun _ _ => true }

/-- A host on which an address is in use once the trace holds a command that
binds it, and on which every process is gone at the first poll. -/
def trackingHost : Host :=
  { idleHost with
    commandContains := fun history _ needle =>
      (commandsOf history).any (fun cmd => ("ip addr add " ++ needle).data.isPrefixOf cmd.data) }

/-- The world before anything has happened, with no file. -/
def emptyWorld : World :=
  { trace := [], files := fun _ => none }

/-- The topology of the example scenario: one server, two clients, prefix
`sim-`, three addresses. -/
def exampleConfig : Config :=
  { Servers := 1, Clients := 2, Binary := "nomad", Prefix := "sim-",
    ServerPrefix := "server", ClientPrefix := "client", Directory := "/tmp/sim",
    Ips := ["10.0.0.1", "10.0.0.2", "10.0.0.3"],
    Import := false, Export := false, Persist := false }

/-- The example topology with a pool of two addresses only. -/
def shortPoolConfig : Config :=
  { exampleConfig with Ips := ["10.0.0.1", "10.0.0.2"] }

/-- A machine whose heap holds every block. -/
def roomyMachine : Machine := { holds := fun _ => true }

/-- A machine whose heap holds no block of more than a gibibyte. -/
def smallMachine : Machine := { holds := fun bytes => decide (bytes ≤ 2 ^ 30) }

/-- A topology of 2^42 servers with an empty pool. -/
def hugeConfig : Config :=
  { exampleConfig with Servers := 4398046511104, Clients := 0, Ips := [] }

/-- A topology of 2^30 servers with an empty pool. -/
def largeConfig : Config :=
  { exampleConfig with Servers := 1073741824, Clients := 0, Ips := [] }

/-- A topology whose server and client sub-prefixes are the same. -/
def sameRoleConfig : Config :=
  { Servers := 1, Clients := 1, Binary := "nomad", Prefix := "sim-",
    ServerPrefix := "node", ClientPrefix := "node", Directory := "/tmp/sim",
    Ips := ["10.0.0.1", "10.0.0.2"], Import := false, Export := false, Persist := false }

/-- A registry of one client between two servers, none with a process
identifier, as an import yields it. -/
def mixedRegistry : List Node :=
  [{ Server := true, Binary := "nomad", Name := "sim-server0", Region := "global",
     Dc := "dc1", Ip := "10.0.0.1", Device := "sim-eth0", Dir := "/tmp/sim/sim-server0",
     Pid := 0 },
   { Server := false, Binary := "nomad", Name := "sim-client0", Region := "global",
     Dc := "dc1", Ip := "10.0.0.2", Device := "sim-eth1", Dir := "/tmp/sim/sim-client0",
     Pid := 0 },
   { Server := true, Binary := "nomad", Name := "sim-server1", Region := "global",
     Dc := "dc1", Ip := "10.0.0.3", Device := "sim-eth2", Dir := "/tmp/sim/sim-server1",
     Pid := 0 }]

/-- The server node of the example topology. -/
def exampleNode : Node :=
  { Server := true, Binary := "nomad", Name := "sim-server0", Region := "global",
    Dc := "dc1", Ip := "10.0.0.1", Device := "sim-eth0", Dir := "/tmp/sim/sim-server0",
    Pid := 0 }

/-- A topology of two servers and one client. -/
def twoServerConfig : Config :=
  { Servers := 2, Clients := 1, Binary := "nomad", Prefix := "sim-",
    ServerPrefix := "server", ClientPrefix := "client", Directory := "/tmp/sim",
    Ips := ["10.0.0.1", "10.0.0.2", "10.0.0.3"],
    Import := false, Export := false, Persist := false }

/-- A registry of a server and a client whose agents are running. -/
def runningRegistry : List Node :=
  [{ Server := true, Binary := "nomad", Name := "sim-server0", Region := "global",
     Dc := "dc1", Ip := "10.0.0.1", Device := "sim-eth0", Dir := "/tmp/sim/sim-server0",
     Pid := 4711 },
   { Server := false, Binary := "nomad", Name := "sim-client0", Region := "global",
     Dc := "dc1", Ip := "10.0.0.2", Device := "sim-eth1", Dir := "/tmp/sim/sim-client0",
     Pid := 4712 }]

/-- A registry of one running server whose name is the single byte 0xFF, which
is not UTF-8; all its other strings are ASCII. -/
def brokenRegistry : List GoNode :=
  [{ Server := true, Binary := utf8Bytes "nomad", Name := [0xFF],
     Region := utf8Bytes "global", Dc := utf8Bytes "dc1", Ip := utf8Bytes "10.0.0.1",
     Device := utf8Bytes "sim-eth0", Dir := utf8Bytes "/tmp/sim/x", Pid := 4711 }]

/-! ## Theorems -/

theorem QuietStep.refl (w : World) : QuietStep w w :=
  ⟨rfl, [], by simp, by simp⟩

theorem QuietStep.trans {a b c : World} (h1 : QuietStep a b) (h2 : QuietStep b c) :
    QuietStep a c := by
  obtain ⟨hf1, e1, ht1, hq1⟩ := h1
  obtain ⟨hf2, e2, ht2, hq2⟩ := h2
  refine ⟨hf2.trans hf1, e1 ++ e2, ?_, ?_⟩
  · rw [ht2, ht1, List.append_assoc]
  · intro e he
    rcases List.mem_append.mp he with h | h
    · exact hq1 e h
    · exact hq2 e h

theorem QuietStep.emit (w : World) (e : Event) (he : e.touchesHost = false) :
    QuietStep w (w.emit e) :=
  ⟨rfl, [e], rfl, by simpa using he⟩

theorem QuietStep.printNode (node : Node) (w : World) : QuietStep w (printNode node w) :=
  QuietStep.emit w _ rfl

theorem builtList_length (cfg : Config) (server : Bool) (rp : String) :
    ∀ count k m, (builtList cfg server rp count k m).length = count := by
  intro count
  induction count with
  | zero => intro k m; rfl
  | succ n ih => intro k m; simp [builtList, ih]

theorem builtList_getElem? (cfg : Config) (server : Bool) (rp : String) :
    ∀ count k m i, i < count →
      (builtList cfg server rp count k m)[i]? = some (builtNode cfg server rp (k + i) (m + i)) := by
  intro count
  induction count with
  | zero => intro k m i hi; omega
  | succ n ih =>
    intro k m i hi
    cases i with
    | zero => simp [builtList]
    | succ j =>
      simp only [builtList, List.getElem?_cons_succ]
      rw [ih (k + 1) (m + 1) j (by omega)]
      congr 2 <;> omega

theorem makeNode_returns (cfg : Config) (server : Bool) (rp : String) (k : Nat)
    (done : List Node) (rest : Nat) (w : World) (hlt : done.length < cfg.Ips.length) :
    makeNode cfg server rp k
        { nodes := done ++ List.replicate (rest + 1) zeroNode, marker := done.length } w
      = Outcome.returned
        { nodes := (done ++ [builtNode cfg server rp k done.length]) ++
            List.replicate rest zeroNode,
          marker := (done ++ [builtNode cfg server rp k done.length]).length }
        (printNode (builtNode cfg server rp k done.length) w) := by
  have hip : cfg.Ips[done.length]? = some (cfg.Ips[done.length]) :=
    List.getElem?_eq_getElem hlt
  have hset : (done ++ List.replicate (rest + 1) zeroNode).set done.length
      (builtNode cfg server rp k done.length)
      = (done ++ [builtNode cfg server rp k done.length]) ++ List.replicate rest zeroNode := by
    rw [List.set_append_right _ _ (le_refl _), List.replicate_succ]
    simp
  have hlt2 : done.length < (done ++ List.replicate (rest + 1) zeroNode).length := by
    simp
  have hb : builtNode cfg server rp k done.length =
      { Server := server, Binary := cfg.Binary, Name := cfg.Prefix ++ rp ++ Itoa k,
        Region := "global", Dc := "dc1", Ip := cfg.Ips[done.length],
        Device := cfg.Prefix ++ "eth" ++ Itoa done.length,
        Dir := cfg.Directory ++ "/" ++ (cfg.Prefix ++ rp ++ Itoa k), Pid := 0 } := by
    simp [builtNode, hip]
  unfold makeNode
  simp only [hlt2, if_true, hip]
  rw [← hb, hset]
  simp

theorem makeLoop_returns (cfg : Config) (server : Bool) (rp : String) :
    ∀ (count k : Nat) (done : List Node) (extra : Nat) (w : World),
      done.length + count ≤ cfg.Ips.length →
      ∃ w2, makeLoop cfg server rp count k
          { nodes := done ++ List.replicate (count + extra) zeroNode, marker := done.length } w
        = Outcome.returned
          { nodes := done ++ builtList cfg server rp count k done.length ++
              List.replicate extra zeroNode,
            marker := done.length + count } w2 ∧ QuietStep w w2 := by
  intro count
  induction count with
  | zero =>
    intro k done extra w _
    exact ⟨w, by simp [makeLoop, builtList], QuietStep.refl w⟩
  | succ n ih =>
    intro k done extra w hlen
    obtain ⟨w2, hrun, hq⟩ := ih (k + 1) (done ++ [builtNode cfg server rp k done.length]) extra
      (printNode (builtNode cfg server rp k done.length) w) (by simp; omega)
    refine ⟨w2, ?_, (QuietStep.printNode _ w).trans hq⟩
    have hn : n + 1 + extra = (n + extra) + 1 := by omega
    rw [makeLoop, hn, makeNode_returns cfg server rp k done (n + extra) w (by omega)]
    simp only
    rw [hrun]
    simp [builtList, Nat.add_assoc, Nat.add_comm 1 n]

theorem makeLoop_panics (cfg : Config) (server : Bool) (rp : String) :
    ∀ (count k : Nat) (done : List Node) (extra : Nat) (w : World),
      done.length ≤ cfg.Ips.length → cfg.Ips.length < done.length + count →
      ∃ w2, makeLoop cfg server rp count k
          { nodes := done ++ List.replicate (count + extra) zeroNode, marker := done.length } w
        = Outcome.panicked
            (RuntimePanic.indexOutOfRange cfg.Ips.length cfg.Ips.length) w2 ∧
          QuietStep w w2 := by
  intro count
  induction count with
  | zero => intro k done extra w h1 h2; omega
  | succ n ih =>
    intro k done extra w h1 h2
    have hn : n + 1 + extra = (n + extra) + 1 := by omega
    rcases Nat.lt_or_ge done.length cfg.Ips.length with hlt | hge
    · obtain ⟨w2, hrun, hq⟩ := ih (k + 1) (done ++ [builtNode cfg server rp k done.length])
        extra (printNode (builtNode cfg server rp k done.length) w) (by simp; omega)
        (by simp; omega)
      refine ⟨w2, ?_, (QuietStep.printNode _ w).trans hq⟩
      rw [makeLoop, hn, makeNode_returns cfg server rp k done (n + extra) w hlt]
      simp only
      rw [hrun]
    · have heq : done.length = cfg.Ips.length := by omega
      have hnone : cfg.Ips[done.length]? = none := List.getElem?_eq_none (by omega)
      refine ⟨w, ?_, QuietStep.refl w⟩
      have hlt2 : done.length < (done ++ List.replicate (n + 1 + extra) zeroNode).length := by
        simp
      simp only [makeLoop, makeNode, hlt2, if_true, hnone]
      rw [heq]

theorem wrapInt_of_range (x : Int) (h1 : -(2 : Int) ^ 63 ≤ x) (h2 : x < 2 ^ 63) :
    wrapInt x = x := by
  unfold wrapInt
  omega

theorem MakeNodes_fresh (host : Host) (cfg : Config) (w : World) (s c : Nat)
    (himp : cfg.Import = false) (hs : cfg.Servers = s) (hc : cfg.Clients = c)
    (hpool : s + c ≤ cfg.Ips.length) (hrep : (cfg.Ips.length : Int) < 2 ^ 63) :
    ∃ w2, QuietStep w w2 ∧ MakeNodes host cfg w = Outcome.returned (freshNodes cfg s c)
      (if cfg.Export then exportNodes host cfg (freshNodes cfg s c) w2 else w2) := by
  have hsum : wrapInt (cfg.Servers + cfg.Clients) = ((s + c : Nat) : Int) := by
    rw [wrapInt_of_range] <;> rw [hs, hc] <;> push_cast <;> omega
  obtain ⟨w1, h1, hq1⟩ := makeLoop_returns cfg true cfg.ServerPrefix s 0 [] c
    (w.emit (Event.print "Mapping Servers...\n")) (by simp; omega)
  obtain ⟨w2, h2, hq2⟩ := makeLoop_returns cfg false cfg.ClientPrefix c 0
    (builtList cfg true cfg.ServerPrefix s 0 0) 0
    (w1.emit (Event.print "Mapping Clients...\n")) (by simp [builtList_length]; omega)
  simp only [List.nil_append, List.length_nil, Nat.zero_add] at h1
  simp only [builtList_length, Nat.add_zero, List.replicate_zero, List.append_nil] at h2
  unfold MakeNodes
  simp only [hsum, himp]
  rw [hs, hc]
  simp only [Int.toNat_ofNat]
  have hneg : ¬ (((s + c : Nat) : Int) < 0) := by omega
  simp only [hneg, if_false, Bool.false_eq_true]
  rw [h1]
  simp only
  rw [h2]
  refine ⟨w2, ?_, ?_⟩
  · exact ((QuietStep.emit w (Event.print "Mapping Servers...\n") rfl).trans hq1).trans
      ((QuietStep.emit w1 (Event.print "Mapping Clients...\n") rfl).trans hq2)
  · simp only [freshNodes]
    split <;> rfl

theorem freshNodes_length (cfg : Config) (s c : Nat) : (freshNodes cfg s c).length = s + c := by
  simp [freshNodes, builtList_length]

theorem freshNodes_server (cfg : Config) (s c i : Nat) (hi : i < s) :
    (freshNodes cfg s c)[i]? = some (builtNode cfg true cfg.ServerPrefix i i) := by
  unfold freshNodes
  rw [List.getElem?_append_left (by simpa [builtList_length] using hi),
    builtList_getElem? _ _ _ _ _ _ _ hi]
  simp

theorem freshNodes_client (cfg : Config) (s c i : Nat) (h1 : s ≤ i) (h2 : i < s + c) :
    (freshNodes cfg s c)[i]? = some (builtNode cfg false cfg.ClientPrefix (i - s) i) := by
  unfold freshNodes
  rw [List.getElem?_append_right (by simpa [builtList_length] using h1), builtList_length,
    builtList_getElem? _ _ _ _ _ _ _ (by omega)]
  congr 2 <;> omega

/-- C1: a fresh build with `s` servers, `c` clients and a pool of at least `s + c`
addresses returns exactly `s + c` nodes; the node at position `i` is a server
exactly when `i < s`, its `Ip` is pool entry `i` and its `Device` is
`Prefix + "eth" + decimal(i)`. -/
theorem MakeNodes_layout (host : Host) (cfg : Config) (w : World) (s c : Nat)
    (himp : cfg.Import = false) (hs : cfg.Servers = s) (hc : cfg.Clients = c)
    (hpool : s + c ≤ cfg.Ips.length) (hrep : (cfg.Ips.length : Int) < 2 ^ 63) :
    ∃ nodes w2, MakeNodes host cfg w = Outcome.returned nodes w2 ∧
      nodes.length = s + c ∧
      ∀ (i : Nat) (node : Node), nodes[i]? = some node →
        (node.Server = true ↔ i < s) ∧ cfg.Ips[i]? = some node.Ip ∧
          node.Device = cfg.Prefix ++ "eth" ++ Itoa i := by
  obtain ⟨w2, -, hrun⟩ := MakeNodes_fresh host cfg w s c himp hs hc hpool hrep
  refine ⟨_, _, hrun, freshNodes_length cfg s c, ?_⟩
  intro i node hnode
  have hi : i < s + c := by
    have := (List.getElem?_eq_some_iff.mp hnode).1
    rwa [freshNodes_length] at this
  have hlen : i < cfg.Ips.length := by omega
  have hip := List.getElem?_eq_getElem hlen
  rcases Nat.lt_or_ge i s with hlt | hge
  · rw [freshNodes_server cfg s c i hlt] at hnode
    cases hnode
    simp [builtNode, hlt, hip]
  · rw [freshNodes_client cfg s c i hge hi] at hnode
    cases hnode
    simp [builtNode, hip]
    omega

/-- Witness for C1 on the example topology: one server, two clients, three
addresses. -/
theorem MakeNodes_layout_witness :
    (exampleConfig.Import = false ∧ exampleConfig.Servers = ((1 : Nat) : Int) ∧
      exampleConfig.Clients = ((2 : Nat) : Int) ∧ 1 + 2 ≤ exampleConfig.Ips.length ∧
      (exampleConfig.Ips.length : Int) < 2 ^ 63) ∧
    ∃ nodes w2, MakeNodes idleHost exampleConfig emptyWorld = Outcome.returned nodes w2 ∧
      nodes.length = 1 + 2 ∧
      ∀ (i : Nat) (node : Node), nodes[i]? = some node →
        (node.Server = true ↔ i < 1) ∧ exampleConfig.Ips[i]? = some node.Ip ∧
          node.Device = exampleConfig.Prefix ++ "eth" ++ Itoa i :=
  ⟨⟨rfl, rfl, rfl, by decide, by norm_num [exampleConfig]⟩,
    MakeNodes_layout idleHost exampleConfig emptyWorld 1 2 rfl rfl rfl (by decide)
      (by norm_num [exampleConfig])⟩

/-- C9 as stated fails: on the example topology the devices are `sim-eth0`,
`sim-eth1`, `sim-eth2`, so the registry is not the one with `simeth0`,
`simeth1`, `simeth2`. -/
theorem MakeNodes_example_not_simeth :
    ¬ ∃ nodes w2, MakeNodes idleHost exampleConfig emptyWorld = Outcome.returned nodes w2 ∧
      nodes.map (fun node => (node.Server, node.Name, node.Ip, node.Device)) =
        [(true, "sim-server0", "10.0.0.1", "simeth0"),
         (false, "sim-client0", "10.0.0.2", "simeth1"),
         (false, "sim-client1", "10.0.0.3", "simeth2")] := by
  rintro ⟨nodes, w2, hrun, hmap⟩
  have hval : (MakeNodes idleHost exampleConfig emptyWorld).value? = some nodes := by
    rw [hrun]; rfl
  have hnodes : (MakeNodes idleHost exampleConfig emptyWorld).value? = some
      (freshNodes exampleConfig 1 2) := by decide
  rw [hnodes] at hval
  cases hval
  revert hmap
  decide

/-- C9, amended: for the topology servers=1, clients=2, prefix `sim-`, server
sub-prefix `server`, client sub-prefix `client`, pool 10.0.0.1, 10.0.0.2,
10.0.0.3, a fresh build returns the three nodes server `sim-server0` at
10.0.0.1 on `sim-eth0`, client `sim-client0` at 10.0.0.2 on `sim-eth1` and
client `sim-client1` at 10.0.0.3 on `sim-eth2`, whatever the host, the binary,
the directory and the export and persist flags. -/
theorem MakeNodes_example (host : Host) (w : World) (binary directory : String)
    (exp persist : Bool) :
    ∃ w2, MakeNodes host
        { Servers := 1, Clients := 2, Binary := binary, Prefix := "sim-",
          ServerPrefix := "server", ClientPrefix := "client", Directory := directory,
          Ips := ["10.0.0.1", "10.0.0.2", "10.0.0.3"],
          Import := false, Export := exp, Persist := persist } w
      = Outcome.returned
        [{ Server := true, Binary := binary, Name := "sim-server0", Region := "global",
           Dc := "dc1", Ip := "10.0.0.1", Device := "sim-eth0",
           Dir := directory ++ "/" ++ "sim-server0", Pid := 0 },
         { Server := false, Binary := binary, Name := "sim-client0", Region := "global",
           Dc := "dc1", Ip := "10.0.0.2", Device := "sim-eth1",
           Dir := directory ++ "/" ++ "sim-client0", Pid := 0 },
         { Server := false, Binary := binary, Name := "sim-client1", Region := "global",
           Dc := "dc1", Ip := "10.0.0.3", Device := "sim-eth2",
           Dir := directory ++ "/" ++ "sim-client1", Pid := 0 }] w2 := by
  obtain ⟨w2, -, hrun⟩ := MakeNodes_fresh host
    { Servers := 1, Clients := 2, Binary := binary, Prefix := "sim-",
      ServerPrefix := "server", ClientPrefix := "client", Directory := directory,
      Ips := ["10.0.0.1", "10.0.0.2", "10.0.0.3"],
      Import := false, Export := exp, Persist := persist } w 1 2 rfl rfl rfl
    (le_refl 3) (by norm_num)
  exact ⟨_, hrun⟩

theorem MakeNodes_index_panic (host : Host) (cfg : Config) (w : World) (s c : Nat)
    (himp : cfg.Import = false) (hs : cfg.Servers = s) (hc : cfg.Clients = c)
    (hfit : s + c < 2 ^ 63) (hpool : cfg.Ips.length < s + c) :
    ∃ w2, MakeNodes host cfg w = Outcome.panicked
        (RuntimePanic.indexOutOfRange cfg.Ips.length cfg.Ips.length) w2 ∧
      QuietStep w w2 := by
  have hsum : wrapInt (cfg.Servers + cfg.Clients) = ((s + c : Nat) : Int) := by
    rw [wrapInt_of_range] <;> rw [hs, hc] <;> push_cast <;> omega
  have hneg : ¬ (((s + c : Nat) : Int) < 0) := by omega
  unfold MakeNodes
  simp only [hsum, himp, hneg, if_false, Bool.false_eq_true]
  rw [hs, hc]
  simp only [Int.toNat_ofNat]
  rcases Nat.lt_or_ge cfg.Ips.length s with hlt | hge
  · obtain ⟨w1, h1, hq1⟩ := makeLoop_panics cfg true cfg.ServerPrefix s 0 [] c
      (w.emit (Event.print "Mapping Servers...\n")) (by simp) (by simpa using hlt)
    simp only [List.nil_append, List.length_nil] at h1
    rw [h1]
    exact ⟨w1, rfl, (QuietStep.emit w (Event.print "Mapping Servers...\n") rfl).trans hq1⟩
  · obtain ⟨w1, h1, hq1⟩ := makeLoop_returns cfg true cfg.ServerPrefix s 0 [] c
      (w.emit (Event.print "Mapping Servers...\n")) (by simpa using hge)
    obtain ⟨w2, h2, hq2⟩ := makeLoop_panics cfg false cfg.ClientPrefix c 0
      (builtList cfg true cfg.ServerPrefix s 0 0) 0
      (w1.emit (Event.print "Mapping Clients...\n")) (by simpa [builtList_length] using hge)
      (by simpa [builtList_length] using hpool)
    simp only [List.nil_append, List.length_nil, Nat.zero_add] at h1
    simp only [builtList_length, Nat.add_zero] at h2
    rw [h1]
    simp only
    rw [h2]
    exact ⟨w2, rfl, ((QuietStep.emit w (Event.print "Mapping Servers...\n") rfl).trans hq1).trans
      ((QuietStep.emit w1 (Event.print "Mapping Clients...\n") rfl).trans hq2)⟩

/-- C7 as stated fails: with a pool of length 2, one server and two clients,
on a machine with room for the slice, `MakeNodes` ends in the Go run-time
panic "index out of range [2] with length 2", raised by `cfg.Ips[marker]`; it
hands no error named InsufficientAddressPool to its caller. -/
theorem MakeNodesOn_short_pool_index_panic :
    ∃ w2, MakeNodesOn roomyMachine idleHost shortPoolConfig emptyWorld
        = Outcome.panicked (RuntimePanic.indexOutOfRange 2 2) w2 ∧
      (RuntimePanic.indexOutOfRange 2 2).message
        = "runtime error: index out of range [2] with length 2" ∧
      (RuntimePanic.indexOutOfRange 2 2).message ≠ "InsufficientAddressPool" := by
  refine ⟨_, rfl, by decide, by decide⟩

/-- C7, amended: a fresh build with `int` counts `s, c ≥ 0` and a pool of fewer
than `s + c` addresses does not return a registry; it ends in a failure of the
Go run-time.  When `s + c` exceeds 2^41, the longest `[]Node` the run-time
grants, which covers every sum that overflows an `int`, it is the length panic
of `make`; otherwise, when the heap cannot hold the slice, it is out of
memory; in both cases nothing has been printed.  Otherwise it is the panic
index out of range at index `len(pool)`, raised by `cfg.Ips[marker]`.  In every
case the files are unchanged and the run has at most printed: no command,
probe, process call or file access has been issued. -/
theorem MakeNodesOn_short_pool (machine : Machine) (host : Host) (cfg : Config) (w : World)
    (s c : Nat) (himp : cfg.Import = false) (hs : cfg.Servers = s) (hc : cfg.Clients = c)
    (hrep : cfg.Representable) (hpool : cfg.Ips.length < s + c) :
    ∃ w2, MakeNodesOn machine host cfg w = Outcome.panicked
        (if 2 ^ 41 < s + c then RuntimePanic.makeSliceLen
          else if machine.holds ((s + c) * nodeSize) = true then
            RuntimePanic.indexOutOfRange cfg.Ips.length cfg.Ips.length
          else RuntimePanic.outOfMemory) w2 ∧
      QuietStep w w2 ∧
      ((2 ^ 41 < s + c ∨ machine.holds ((s + c) * nodeSize) = false) → w2 = w) := by
  obtain ⟨-, hs63, -, hc63, -⟩ := hrep
  rw [hs] at hs63
  rw [hc] at hc63
  unfold MakeNodesOn
  by_cases hbig : 2 ^ 41 < s + c
  · have hslice : makeSlice machine (wrapInt (cfg.Servers + cfg.Clients))
        = some RuntimePanic.makeSliceLen := by
      unfold makeSlice
      rw [hs, hc]
      by_cases hfit : s + c < 2 ^ 63
      · have hsum : wrapInt ((s : Int) + (c : Int)) = ((s + c : Nat) : Int) := by
          rw [wrapInt_of_range] <;> push_cast <;> omega
        rw [hsum, Int.toNat_ofNat]
        have : maxAlloc < (s + c) * nodeSize := by
          unfold maxAlloc nodeSize
          omega
        simp [this]
      · have hneg : wrapInt ((s : Int) + (c : Int)) < 0 := by
          unfold wrapInt
          omega
        simp [hneg]
    rw [hslice]
    exact ⟨w, by rw [if_pos hbig], QuietStep.refl w, fun _ => rfl⟩
  · have hsum : wrapInt (cfg.Servers + cfg.Clients) = ((s + c : Nat) : Int) := by
      rw [wrapInt_of_range] <;> rw [hs, hc] <;> push_cast <;> omega
    have hneg : ¬ (((s + c : Nat) : Int) < 0) := by omega
    have hsize : ¬ maxAlloc < (s + c) * nodeSize := by
      unfold maxAlloc nodeSize
      omega
    have hpos : ¬ (s + c) * nodeSize = 0 := by
      unfold nodeSize
      omega
    cases hholds : machine.holds ((s + c) * nodeSize)
    · have hslice : makeSlice machine (wrapInt (cfg.Servers + cfg.Clients))
          = some RuntimePanic.outOfMemory := by
        unfold makeSlice
        rw [hsum, Int.toNat_ofNat, if_neg (by rintro (h | h); exacts [hneg h, hsize h]),
          if_neg (by rintro (h | h); exacts [hpos h, by simp [hholds] at h])]
      rw [hslice]
      exact ⟨w, by rw [if_neg hbig]; rfl, QuietStep.refl w, fun _ => rfl⟩
    · have hslice : makeSlice machine (wrapInt (cfg.Servers + cfg.Clients)) = none := by
        unfold makeSlice
        rw [hsum, Int.toNat_ofNat, if_neg (by rintro (h | h); exacts [hneg h, hsize h]),
          if_pos (Or.inr hholds)]
      rw [hslice]
      obtain ⟨w2, hrun, hq⟩ := MakeNodes_index_panic host cfg w s c himp hs hc (by omega) hpool
      refine ⟨w2, by rw [if_neg hbig]; exact hrun, hq, ?_⟩
      rintro (h | h)
      · exact absurd h hbig
      · simp at h

/-- Witness for C7: the pool of length 2 with one server and two clients on a
machine with room, where the index panics; 2^42 servers, which `make` refuses;
and 2^30 servers on a machine that cannot hold them. -/
theorem MakeNodesOn_short_pool_witness :
    (shortPoolConfig.Import = false ∧ shortPoolConfig.Servers = ((1 : Nat) : Int) ∧
      shortPoolConfig.Clients = ((2 : Nat) : Int) ∧ shortPoolConfig.Representable ∧
      shortPoolConfig.Ips.length < 1 + 2) ∧
    (∃ w2, MakeNodesOn roomyMachine idleHost shortPoolConfig emptyWorld = Outcome.panicked
        (if 2 ^ 41 < 1 + 2 then RuntimePanic.makeSliceLen
          else if roomyMachine.holds ((1 + 2) * nodeSize) = true then
            RuntimePanic.indexOutOfRange shortPoolConfig.Ips.length shortPoolConfig.Ips.length
          else RuntimePanic.outOfMemory) w2 ∧
      QuietStep emptyWorld w2 ∧
      ((2 ^ 41 < 1 + 2 ∨ roomyMachine.holds ((1 + 2) * nodeSize) = false) → w2 = emptyWorld)) ∧
    MakeNodesOn roomyMachine idleHost hugeConfig emptyWorld
      = Outcome.panicked RuntimePanic.makeSliceLen emptyWorld ∧
    MakeNodesOn smallMachine idleHost largeConfig emptyWorld
      = Outcome.panicked RuntimePanic.outOfMemory emptyWorld :=
  ⟨⟨rfl, rfl, rfl, by norm_num [Config.Representable, shortPoolConfig, exampleConfig],
      by decide⟩,
    MakeNodesOn_short_pool roomyMachine idleHost shortPoolConfig emptyWorld 1 2 rfl rfl rfl
      (by norm_num [Config.Representable, shortPoolConfig, exampleConfig]) (by decide),
    rfl, rfl⟩

theorem digitValue_digitChar (k : Nat) (hk : k < 10) : digitValue (Nat.digitChar k) = k := by
  interval_cases k <;> rfl

theorem readDecimal_append (l : List Char) (ch : Char) :
    readDecimal (l ++ [ch]) = 10 * readDecimal l + digitValue ch := by
  simp [readDecimal, List.foldl_append]

theorem toDigitsCore_read :
    ∀ (fuel n : Nat) (ds : List Char), n < fuel →
      ∃ l, Nat.toDigitsCore 10 fuel n ds = l ++ ds ∧ readDecimal l = n := by
  intro fuel
  induction fuel with
  | zero => intro n ds h; omega
  | succ f ih =>
    intro n ds hn
    unfold Nat.toDigitsCore
    by_cases hz : n / 10 = 0
    · refine ⟨[Nat.digitChar (n % 10)], by simp [hz], ?_⟩
      have := readDecimal_append [] (Nat.digitChar (n % 10))
      simp only [List.nil_append] at this
      rw [this, digitValue_digitChar _ (Nat.mod_lt _ (by decide))]
      simp [readDecimal]
      omega
    · obtain ⟨l, hl, hr⟩ := ih (n / 10) (Nat.digitChar (n % 10) :: ds) (by omega)
      refine ⟨l ++ [Nat.digitChar (n % 10)], by simp [hz, hl], ?_⟩
      rw [readDecimal_append, hr, digitValue_digitChar _ (Nat.mod_lt _ (by decide))]
      omega

theorem readDecimal_repr (n : Nat) : readDecimal (Nat.repr n).data = n := by
  obtain ⟨l, hl, hr⟩ := toDigitsCore_read (n + 1) n [] (by omega)
  simp only [Nat.repr, Nat.toDigits, List.asString, hl, List.append_nil]
  exact hr

theorem Itoa_natCast_injective (a b : Nat) (h : Itoa (a : Int) = Itoa (b : Int)) : a = b := by
  have h2 : Nat.repr a = Nat.repr b := h
  have := congrArg (fun t => readDecimal t.data) h2
  simpa [readDecimal_repr] using this

theorem append_left_cancel_string (p a b : String) (h : p ++ a = p ++ b) : a = b := by
  have := congrArg String.data h
  simp only [String.data_append, List.append_cancel_left_eq] at this
  exact String.ext this

theorem freshNodes_at (cfg : Config) (s c i : Nat) (hi : i < s + c) :
    (freshNodes cfg s c)[i]? = some (builtNode cfg (decide (i < s))
      (if i < s then cfg.ServerPrefix else cfg.ClientPrefix) (if i < s then i else i - s) i) := by
  rcases Nat.lt_or_ge i s with hlt | hge
  · rw [freshNodes_server cfg s c i hlt]
    simp [hlt]
  · rw [freshNodes_client cfg s c i hge hi]
    have : ¬ i < s := by omega
    simp [this]

theorem nodup_map_of_positions {β : Type} (l : List Node) (f : Node → β)
    (h : ∀ (i j : Nat) (a b : Node), i < j → l[i]? = some a → l[j]? = some b → f a ≠ f b) :
    (l.map f).Nodup := by
  rw [List.nodup_iff_getElem?_ne_getElem?]
  intro i j hij hj
  rw [List.length_map] at hj
  have hi : i < l.length := by omega
  rw [List.getElem?_map, List.getElem?_map, List.getElem?_eq_getElem hi,
    List.getElem?_eq_getElem hj]
  simp only [Option.map_some', ne_eq, Option.some.injEq]
  exact h i j _ _ hij (List.getElem?_eq_getElem hi) (List.getElem?_eq_getElem hj)

theorem name_eq_iff (p r1 r2 a b : String) :
    p ++ r1 ++ a = p ++ r2 ++ b ↔ r1 ++ a = r2 ++ b := by
  rw [String.append_assoc, String.append_assoc]
  exact ⟨append_left_cancel_string p _ _, fun h => by rw [h]⟩

theorem no_clash_of_incomparable (r1 r2 a b : String)
    (h1 : ¬ r1.data <+: r2.data) (h2 : ¬ r2.data <+: r1.data) : r1 ++ a ≠ r2 ++ b := by
  intro h
  have hd := congrArg String.data h
  simp only [String.data_append] at hd
  rcases List.append_eq_append_iff.mp hd with ⟨t, ht, -⟩ | ⟨t, ht, -⟩
  · exact h1 ⟨t, ht.symm⟩
  · exact h2 ⟨t, ht.symm⟩

theorem freshNodes_name_nodup_iff (cfg : Config) (s c : Nat) :
    ((freshNodes cfg s c).map Node.Name).Nodup ↔
      ∀ a b : Nat, a < s → b < c →
        cfg.ServerPrefix ++ Itoa a ≠ cfg.ClientPrefix ++ Itoa b := by
  constructor
  · intro hnd a b ha hb heq
    rw [List.nodup_iff_getElem?_ne_getElem?] at hnd
    refine hnd a (s + b) (by omega) (by simp [freshNodes_length]; omega) ?_
    rw [List.getElem?_map, List.getElem?_map, freshNodes_server cfg s c a ha,
      freshNodes_client cfg s c (s + b) (by omega) (by omega)]
    simp only [Option.map_some', builtNode, Option.some.injEq, Nat.add_sub_cancel_left]
    exact (name_eq_iff _ _ _ _ _).mpr heq
  · intro hclash
    apply nodup_map_of_positions
    intro i j a b hij ha hb
    have hj : j < s + c := by
      have := (List.getElem?_eq_some_iff.mp hb).1
      rwa [freshNodes_length] at this
    rw [freshNodes_at cfg s c i (by omega)] at ha
    rw [freshNodes_at cfg s c j hj] at hb
    cases ha
    cases hb
    simp only [builtNode, ne_eq, name_eq_iff]
    by_cases hi : i < s
    · by_cases hjs : j < s
      · simp only [hi, hjs, if_true]
        intro h
        have := Itoa_natCast_injective i j (append_left_cancel_string _ _ _ h)
        omega
      · simp only [hi, hjs, if_true, if_false]
        exact hclash i (j - s) hi (by omega)
    · have hjs : ¬ j < s := by omega
      simp only [hi, hjs, if_false]
      intro h
      have := Itoa_natCast_injective (i - s) (j - s) (append_left_cancel_string _ _ _ h)
      omega

theorem freshNodes_device_nodup (cfg : Config) (s c : Nat) :
    ((freshNodes cfg s c).map Node.Device).Nodup := by
  apply nodup_map_of_positions
  intro i j a b hij ha hb
  have hj : j < s + c := by
    have := (List.getElem?_eq_some_iff.mp hb).1
    rwa [freshNodes_length] at this
  rw [freshNodes_at cfg s c i (by omega)] at ha
  rw [freshNodes_at cfg s c j hj] at hb
  cases ha
  cases hb
  simp only [builtNode]
  intro h
  have := Itoa_natCast_injective i j (append_left_cancel_string _ _ _ h)
  omega

theorem freshNodes_ip_nodup (cfg : Config) (s c : Nat) (hpool : s + c ≤ cfg.Ips.length)
    (hdistinct : (cfg.Ips.take (s + c)).Nodup) :
    ((freshNodes cfg s c).map Node.Ip).Nodup := by
  apply nodup_map_of_positions
  intro i j a b hij ha hb
  have hj : j < s + c := by
    have := (List.getElem?_eq_some_iff.mp hb).1
    rwa [freshNodes_length] at this
  rw [freshNodes_at cfg s c i (by omega)] at ha
  rw [freshNodes_at cfg s c j hj] at hb
  cases ha
  cases hb
  simp only [builtNode]
  rw [List.nodup_iff_getElem?_ne_getElem?] at hdistinct
  have hne := hdistinct i j hij (by simp; omega)
  rw [List.getElem?_take_of_lt (by omega), List.getElem?_take_of_lt hj] at hne
  have hil : i < cfg.Ips.length := by omega
  have hjl : j < cfg.Ips.length := by omega
  rw [List.getElem?_eq_getElem hil, List.getElem?_eq_getElem hjl] at hne ⊢
  simpa using hne

/-- C2 as stated fails: with the same sub-prefix `node` for both roles, one
server, one client and two distinct addresses, the registry names both nodes
`sim-node0`. -/
theorem MakeNodes_names_clash :
    sameRoleConfig.Ips.Nodup ∧
    ∃ nodes w2, MakeNodes idleHost sameRoleConfig emptyWorld = Outcome.returned nodes w2 ∧
      nodes.map Node.Name = ["sim-node0", "sim-node0"] ∧ ¬ (nodes.map Node.Name).Nodup := by
  refine ⟨by decide, ?_⟩
  obtain ⟨w2, -, hrun⟩ := MakeNodes_fresh idleHost sameRoleConfig emptyWorld 1 1 rfl rfl rfl
    (le_refl 2) (by norm_num [sameRoleConfig])
  exact ⟨_, _, hrun, by decide, by decide⟩

/-- C2, amended: in the registry of a fresh build with `s` servers, `c` clients
and a pool whose first `s + c` addresses are pairwise distinct, all `Ip` values
are pairwise distinct and all `Device` values are pairwise distinct, for every
choice of the prefixes.  The `Name` values are pairwise distinct exactly when no
`ServerPrefix + decimal(a)` with `a < s` equals a `ClientPrefix + decimal(b)`
with `b < c`; that is so whenever neither sub-prefix is an initial segment of
the other. -/
theorem MakeNodes_distinct (host : Host) (cfg : Config) (w : World) (s c : Nat)
    (himp : cfg.Import = false) (hs : cfg.Servers = s) (hc : cfg.Clients = c)
    (hpool : s + c ≤ cfg.Ips.length) (hrep : (cfg.Ips.length : Int) < 2 ^ 63)
    (hdistinct : (cfg.Ips.take (s + c)).Nodup) :
    ∃ nodes w2, MakeNodes host cfg w = Outcome.returned nodes w2 ∧
      (nodes.map Node.Ip).Nodup ∧ (nodes.map Node.Device).Nodup ∧
      ((nodes.map Node.Name).Nodup ↔
        ∀ a b : Nat, a < s → b < c →
          cfg.ServerPrefix ++ Itoa a ≠ cfg.ClientPrefix ++ Itoa b) ∧
      (¬ cfg.ServerPrefix.data <+: cfg.ClientPrefix.data →
        ¬ cfg.ClientPrefix.data <+: cfg.ServerPrefix.data → (nodes.map Node.Name).Nodup) := by
  obtain ⟨w2, -, hrun⟩ := MakeNodes_fresh host cfg w s c himp hs hc hpool hrep
  refine ⟨_, _, hrun, freshNodes_ip_nodup cfg s c hpool hdistinct,
    freshNodes_device_nodup cfg s c, freshNodes_name_nodup_iff cfg s c, ?_⟩
  intro h1 h2
  exact (freshNodes_name_nodup_iff cfg s c).mpr
    (fun a b _ _ => no_clash_of_incomparable _ _ _ _ h1 h2)

/-- Witness for C2 on the example topology, whose sub-prefixes are `server` and
`client`. -/
theorem MakeNodes_distinct_witness :
    (exampleConfig.Import = false ∧ exampleConfig.Servers = ((1 : Nat) : Int) ∧
      exampleConfig.Clients = ((2 : Nat) : Int) ∧ 1 + 2 ≤ exampleConfig.Ips.length ∧
      (exampleConfig.Ips.length : Int) < 2 ^ 63 ∧ (exampleConfig.Ips.take (1 + 2)).Nodup) ∧
    ∃ nodes w2, MakeNodes idleHost exampleConfig emptyWorld = Outcome.returned nodes w2 ∧
      (nodes.map Node.Ip).Nodup ∧ (nodes.map Node.Device).Nodup ∧
      ((nodes.map Node.Name).Nodup ↔
        ∀ a b : Nat, a < 1 → b < 2 →
          exampleConfig.ServerPrefix ++ Itoa a ≠ exampleConfig.ClientPrefix ++ Itoa b) ∧
      (¬ exampleConfig.ServerPrefix.data <+: exampleConfig.ClientPrefix.data →
        ¬ exampleConfig.ClientPrefix.data <+: exampleConfig.ServerPrefix.data →
        (nodes.map Node.Name).Nodup) :=
  ⟨⟨rfl, rfl, rfl, by decide, by norm_num [exampleConfig], by decide⟩,
    MakeNodes_distinct idleHost exampleConfig emptyWorld 1 2 rfl rfl rfl (by decide)
      (by norm_num [exampleConfig]) (by decide)⟩

theorem commandsOf_append (a b : List Event) :
    commandsOf (a ++ b) = commandsOf a ++ commandsOf b := by
  induction a with
  | nil => rfl
  | cons e rest ih => cases e <;> simp [commandsOf, ih]

theorem cleanNodeResources_trace (cfg : Config) (node : Node) (w : World) :
    ∃ extra, (cleanNodeResources cfg node w).trace = w.trace ++ extra ∧
      commandsOf extra = releaseCommands node :=
  ⟨[Event.command ("ip addr del " ++ node.Ip ++ "/24 brd + dev " ++ node.Device ++ " label " ++
      node.Device ++ ":0"),
    Event.command ("ip link delete " ++ node.Device ++ " type dummy"),
    Event.sleep 3, Event.command ("rm -rf " ++ node.Dir)],
    by simp [cleanNodeResources, runCommand, World.emit], rfl⟩

theorem pollProcess_trace (host : Host) (pid : Int) :
    ∀ (fuel : Nat) (w : World), ∃ extra,
      (pollProcess host pid fuel w).world.trace = w.trace ++ extra ∧ commandsOf extra = [] := by
  intro fuel
  induction fuel with
  | zero => intro w; exact ⟨[], by simp [pollProcess, Wait.world], rfl⟩
  | succ f ih =>
    intro w
    unfold pollProcess
    by_cases halive : host.checkProcess w.trace pid = true
    · obtain ⟨extra, htrace, hcmd⟩ :=
        ih ((w.emit (Event.check pid true)).emit (Event.sleep 3))
      refine ⟨[Event.check pid true, Event.sleep 3] ++ extra, ?_, ?_⟩
      · simp only [halive, if_true]
        rw [htrace]
        simp [World.emit]
      · rw [commandsOf_append, hcmd]
        rfl
    · refine ⟨[Event.check pid false], ?_, rfl⟩
      simp only [Bool.not_eq_true] at halive
      simp [halive, Wait.world, World.emit]

theorem cleanNode_trace (host : Host) (fuel : Nat) (cfg : Config) (node : Node) (w : World) :
    ∃ extra rest, (cleanNode host fuel cfg node w).world.trace = w.trace ++ extra ∧
      commandsOf extra ++ rest = stopCommands cfg node ∧
      ((cleanNode host fuel cfg node w).isReturned = true → rest = []) := by
  obtain ⟨polls, hpoll, hcmd⟩ := pollProcess_trace host node.Pid fuel
    (runCommand ("kill -2 " ++ Itoa node.Pid)
      (w.emit (Event.print (" - Removing " ++ node.Name ++ "\n"))))
  have hstart : (runCommand ("kill -2 " ++ Itoa node.Pid)
      (w.emit (Event.print (" - Removing " ++ node.Name ++ "\n")))).trace
      = w.trace ++ [Event.print (" - Removing " ++ node.Name ++ "\n"),
          Event.command (killCommand node)] := by
    simp [runCommand, World.emit, killCommand]
  rw [hstart] at hpoll
  unfold cleanNode cleanNodeProcess
  cases hres : pollProcess host node.Pid fuel
      (runCommand ("kill -2 " ++ Itoa node.Pid)
        (w.emit (Event.print (" - Removing " ++ node.Name ++ "\n")))) with
  | waiting w1 =>
    rw [hres] at hpoll
    refine ⟨[Event.print (" - Removing " ++ node.Name ++ "\n"),
      Event.command (killCommand node)] ++ polls,
      if cfg.Persist then [] else releaseCommands node, ?_, ?_, ?_⟩
    · simpa [Wait.world] using hpoll
    · rw [commandsOf_append, hcmd]
      simp [commandsOf, stopCommands]
    · simp [Wait.isReturned]
  | returned w1 =>
    rw [hres] at hpoll
    simp only [Wait.world] at hpoll
    by_cases hp : cfg.Persist = true
    · refine ⟨[Event.print (" - Removing " ++ node.Name ++ "\n"),
        Event.command (killCommand node)] ++ polls, [], ?_, ?_, fun _ => rfl⟩
      · simpa [hp, Wait.world] using hpoll
      · rw [commandsOf_append, hcmd]
        simp [commandsOf, stopCommands, hp]
    · obtain ⟨rel, hrel, hrelcmd⟩ := cleanNodeResources_trace cfg node w1
      refine ⟨[Event.print (" - Removing " ++ node.Name ++ "\n"),
        Event.command (killCommand node)] ++ polls ++ rel, [], ?_, ?_, fun _ => rfl⟩
      · simp only [hp, Bool.not_false, Bool.not_eq_true, if_true, Wait.world]
        simp [hp, Wait.world, hrel, hpoll]
      · rw [commandsOf_append, commandsOf_append, hcmd, hrelcmd]
        simp [commandsOf, stopCommands, hp]

theorem cleanPass_trace (host : Host) (fuel : Nat) (cfg : Config) (server : Bool) :
    ∀ (nodes : List Node) (w : World), ∃ extra rest,
      (cleanPass host fuel cfg server nodes w).world.trace = w.trace ++ extra ∧
      commandsOf extra ++ rest =
        stopScript cfg (nodes.filter (fun node => decide (node.Server = server))) ∧
      ((cleanPass host fuel cfg server nodes w).isReturned = true → rest = []) := by
  intro nodes
  induction nodes with
  | nil => intro w; exact ⟨[], [], by simp [cleanPass, Wait.world], rfl, fun _ => rfl⟩
  | cons node tail ih =>
    intro w
    by_cases hrole : node.Server = server
    · obtain ⟨e1, r1, ht1, hc1, hr1⟩ := cleanNode_trace host fuel cfg node w
      simp only [cleanPass, hrole, if_true, List.filter_cons, decide_True, stopScript]
      rw [← hrole]
      cases hres : cleanNode host fuel cfg node w with
      | waiting w1 =>
        rw [hres] at ht1
        refine ⟨e1, r1 ++ stopScript cfg (tail.filter (fun n => decide (n.Server = node.Server))),
          by simpa [Wait.world] using ht1, by rw [← List.append_assoc, hc1],
          by simp [Wait.isReturned]⟩
      | returned w1 =>
        rw [hres] at ht1 hr1
        have hr : r1 = [] := hr1 rfl
        subst hr
        simp only [Wait.world, List.append_nil] at ht1 hc1
        obtain ⟨e2, r2, ht2, hc2, hr2⟩ := ih w1
        rw [hrole]
        refine ⟨e1 ++ e2, r2, ?_, ?_, hr2⟩
        · rw [ht2, ht1, List.append_assoc]
        · rw [commandsOf_append, List.append_assoc, hc2, hc1]
    · obtain ⟨e2, r2, ht2, hc2, hr2⟩ := ih w
      simp only [cleanPass, hrole, if_false, List.filter_cons, decide_False]
      exact ⟨e2, r2, ht2, by simpa using hc2, hr2⟩

theorem clientsOf_eq (nodes : List Node) :
    nodes.filter (fun node => decide (node.Server = false)) = clientsOf nodes := by
  unfold clientsOf
  apply List.filter_congr
  intro node _
  cases node.Server <;> rfl

theorem serversOf_eq (nodes : List Node) :
    nodes.filter (fun node => decide (node.Server = true)) = serversOf nodes := by
  unfold serversOf
  apply List.filter_congr
  intro node _
  cases node.Server <;> rfl

theorem CleanNodes_trace (host : Host) (fuel : Nat) (cfg : Config)
    (nodes : List Node) (w : World) :
    ∃ extra rest, (CleanNodes host fuel cfg nodes w).world.trace = w.trace ++ extra ∧
      commandsOf extra ++ rest =
        stopScript cfg (clientsOf nodes) ++ stopScript cfg (serversOf nodes) ∧
      ((CleanNodes host fuel cfg nodes w).isReturned = true → rest = []) := by
  obtain ⟨e1, r1, ht1, hc1, hr1⟩ := cleanPass_trace host fuel cfg false nodes
    (w.emit (Event.print "Cleaning Nodes...\n"))
  rw [clientsOf_eq] at hc1
  unfold CleanNodes
  cases hres : cleanPass host fuel cfg false nodes
      (w.emit (Event.print "Cleaning Nodes...\n")) with
  | waiting w1 =>
    rw [hres] at ht1
    refine ⟨Event.print "Cleaning Nodes...\n" :: e1, r1 ++ stopScript cfg (serversOf nodes),
      ?_, ?_, by simp [Wait.isReturned]⟩
    · simpa [Wait.world, World.emit] using ht1
    · rw [← List.append_assoc]
      simp only [commandsOf]
      rw [hc1]
  | returned w1 =>
    rw [hres] at ht1 hr1
    have hr : r1 = [] := hr1 rfl
    subst hr
    simp only [Wait.world, List.append_nil] at ht1 hc1
    obtain ⟨e2, r2, ht2, hc2, hr2⟩ := cleanPass_trace host fuel cfg true nodes w1
    rw [serversOf_eq] at hc2
    refine ⟨Event.print "Cleaning Nodes...\n" :: (e1 ++ e2), r2, ?_, ?_, hr2⟩
    · simp only
      rw [ht2, ht1]
      simp [World.emit]
    · simp only [commandsOf]
      rw [commandsOf_append, List.append_assoc, hc2, hc1]

/-- C3: whatever the order of the registry and however long the run is observed,
the commands `CleanNodes` has issued are an initial segment of the stop scripts
of all client nodes followed by the stop scripts of all server nodes, each
script starting with the node's `kill -2 <pid>`; it is the whole sequence once
`CleanNodes` has returned, and as soon as any command of a server has been
issued the scripts of all clients have been issued in full. -/
theorem CleanNodes_clients_first (host : Host) (fuel : Nat) (cfg : Config)
    (nodes : List Node) (w : World) :
    ∃ extra rest, (CleanNodes host fuel cfg nodes w).world.trace = w.trace ++ extra ∧
      commandsOf extra ++ rest =
        stopScript cfg (clientsOf nodes) ++ stopScript cfg (serversOf nodes) ∧
      ((CleanNodes host fuel cfg nodes w).isReturned = true → rest = []) ∧
      ((stopScript cfg (clientsOf nodes)).length < (commandsOf extra).length →
        ∃ issued, commandsOf extra = stopScript cfg (clientsOf nodes) ++ issued) := by
  obtain ⟨extra, rest, ht, hc, hr⟩ := CleanNodes_trace host fuel cfg nodes w
  refine ⟨extra, rest, ht, hc, hr, ?_⟩
  intro hlen
  rcases List.append_eq_append_iff.mp hc with ⟨t, h1, -⟩ | ⟨t, h1, -⟩
  · rw [h1] at hlen
    simp at hlen
  · exact ⟨t, h1⟩

theorem pollProcess_returns (host : Host) (pid : Int) :
    ∀ (k fuel : Nat) (w : World), k < fuel →
      host.checkProcess (waitedHistory pid k w.trace) pid = false →
      (pollProcess host pid fuel w).isReturned = true := by
  intro k
  induction k with
  | zero =>
    intro fuel w hk hgone
    cases fuel with
    | zero => omega
    | succ f =>
      simp only [waitedHistory] at hgone
      simp [pollProcess, hgone, Wait.isReturned]
  | succ k ih =>
    intro fuel w hk hgone
    cases fuel with
    | zero => omega
    | succ f =>
      unfold pollProcess
      by_cases halive : host.checkProcess w.trace pid = true
      · simp only [halive, if_true]
        apply ih f _ (by omega)
        simp only [waitedHistory] at hgone
        simpa [World.emit] using hgone
      · simp only [Bool.not_eq_true] at halive
        simp [halive, Wait.isReturned]

theorem cleanNode_returns (host : Host) (fuel bound : Nat) (cfg : Config) (node : Node)
    (w : World) (hlive : host.StopsWithin bound) (hfuel : bound ≤ fuel) :
    (cleanNode host fuel cfg node w).isReturned = true := by
  obtain ⟨k, hk, hgone⟩ := hlive (runCommand ("kill -2 " ++ Itoa node.Pid)
      (w.emit (Event.print (" - Removing " ++ node.Name ++ "\n")))).trace node.Pid
  have h := pollProcess_returns host node.Pid k fuel _ (by omega) hgone
  unfold cleanNode cleanNodeProcess
  cases hres : pollProcess host node.Pid fuel
      (runCommand ("kill -2 " ++ Itoa node.Pid)
        (w.emit (Event.print (" - Removing " ++ node.Name ++ "\n")))) with
  | waiting w1 => rw [hres] at h; simp [Wait.isReturned] at h
  | returned w1 =>
    simp only
    split <;> rfl

theorem cleanPass_returns (host : Host) (fuel bound : Nat) (cfg : Config) (server : Bool)
    (hlive : host.StopsWithin bound) (hfuel : bound ≤ fuel) :
    ∀ (nodes : List Node) (w : World),
      (cleanPass host fuel cfg server nodes w).isReturned = true := by
  intro nodes
  induction nodes with
  | nil => intro w; rfl
  | cons node tail ih =>
    intro w
    unfold cleanPass
    by_cases hrole : node.Server = server
    · have h := cleanNode_returns host fuel bound cfg node w hlive hfuel
      simp only [hrole, if_true]
      cases hres : cleanNode host fuel cfg node w with
      | waiting w1 => rw [hres] at h; simp [Wait.isReturned] at h
      | returned w1 => exact ih w1
    · simp only [hrole, if_false]
      exact ih w

theorem CleanNodes_returns (host : Host) (fuel bound : Nat) (cfg : Config) (nodes : List Node)
    (w : World) (hlive : host.StopsWithin bound) (hfuel : bound ≤ fuel) :
    (CleanNodes host fuel cfg nodes w).isReturned = true := by
  have h1 := cleanPass_returns host fuel bound cfg false hlive hfuel nodes
    (w.emit (Event.print "Cleaning Nodes...\n"))
  unfold CleanNodes
  cases hres : cleanPass host fuel cfg false nodes
      (w.emit (Event.print "Cleaning Nodes...\n")) with
  | waiting w1 => rw [hres] at h1; simp [Wait.isReturned] at h1
  | returned w1 => exact cleanPass_returns host fuel bound cfg true hlive hfuel nodes w1

theorem isStop_killCommand (node : Node) : isStop (killCommand node) = true := by
  simp [isStop, killCommand, String.data_append]

theorem filter_isStop_releaseCommands (node : Node) :
    (releaseCommands node).filter isStop = [] := by
  simp [releaseCommands, isStop, String.data_append, String.append_assoc]

theorem filter_isStop_stopScript (cfg : Config) (nodes : List Node) :
    (stopScript cfg nodes).filter isStop = nodes.map killCommand := by
  induction nodes with
  | nil => rfl
  | cons node tail ih =>
    simp only [stopScript, stopCommands, List.cons_append, List.filter_cons,
      isStop_killCommand, if_true, List.filter_append, List.map_cons, ih]
    split
    · simp
    · simp [filter_isStop_releaseCommands]

theorem clients_servers_perm (nodes : List Node) :
    (clientsOf nodes ++ serversOf nodes).Perm nodes := by
  have h := List.filter_append_perm (fun node : Node => !node.Server) nodes
  simpa [clientsOf, serversOf] using h

/-- C10: on a host where every wait for a process ends within `bound` polls,
`CleanNodes` observed for at least `bound` polls per wait returns, and the stop
steps it has issued are exactly one `kill -2 <Pid>` per node of the registry,
clients first: no node is skipped whatever its `Pid`, so when every `Pid` is 0
the command `kill -2 0` is issued once per node. -/
theorem CleanNodes_stops_every_node (host : Host) (fuel bound : Nat) (cfg : Config)
    (nodes : List Node) (w : World) (hlive : host.StopsWithin bound) (hfuel : bound ≤ fuel) :
    ∃ w2 extra, CleanNodes host fuel cfg nodes w = Wait.returned w2 ∧
      w2.trace = w.trace ++ extra ∧
      stopsOf extra = (clientsOf nodes ++ serversOf nodes).map killCommand ∧
      (clientsOf nodes ++ serversOf nodes).Perm nodes ∧
      ((∀ node ∈ nodes, node.Pid = 0) →
        stopsOf extra = List.replicate nodes.length "kill -2 0") := by
  obtain ⟨extra, rest, ht, hc, hr⟩ := CleanNodes_trace host fuel cfg nodes w
  have hret := CleanNodes_returns host fuel bound cfg nodes w hlive hfuel
  have hrest : rest = [] := hr hret
  subst hrest
  rw [List.append_nil] at hc
  have hstops : stopsOf extra = (clientsOf nodes ++ serversOf nodes).map killCommand := by
    unfold stopsOf
    rw [hc, List.filter_append, filter_isStop_stopScript, filter_isStop_stopScript,
      List.map_append]
  cases hres : CleanNodes host fuel cfg nodes w with
  | waiting w1 => rw [hres] at hret; simp [Wait.isReturned] at hret
  | returned w1 =>
    rw [hres] at ht
    refine ⟨w1, extra, rfl, ht, hstops, clients_servers_perm nodes, ?_⟩
    intro hzero
    rw [hstops, List.eq_replicate_iff]
    refine ⟨?_, ?_⟩
    · rw [List.length_map]
      exact (clients_servers_perm nodes).length_eq
    · intro cmd hcmd
      obtain ⟨node, hmem, rfl⟩ := List.mem_map.mp hcmd
      have hin : node ∈ nodes := (clients_servers_perm nodes).subset hmem
      unfold killCommand
      rw [hzero node hin]
      rfl

/-- Witness for C10: a registry of two servers and a client, all with `Pid` 0,
cleaned on a host whose polls find every process gone at once. -/
theorem CleanNodes_stops_every_node_witness :
    (idleHost.StopsWithin 1 ∧ 1 ≤ 1) ∧
    ∃ w2 extra, CleanNodes idleHost 1 exampleConfig mixedRegistry emptyWorld = Wait.returned w2 ∧
      w2.trace = emptyWorld.trace ++ extra ∧
      stopsOf extra = (clientsOf mixedRegistry ++ serversOf mixedRegistry).map killCommand ∧
      (clientsOf mixedRegistry ++ serversOf mixedRegistry).Perm mixedRegistry ∧
      ((∀ node ∈ mixedRegistry, node.Pid = 0) →
        stopsOf extra = List.replicate mixedRegistry.length "kill -2 0") :=
  ⟨⟨fun _ _ => ⟨0, by decide, rfl⟩, le_refl 1⟩,
    CleanNodes_stops_every_node idleHost 1 1 exampleConfig mixedRegistry emptyWorld
      (fun _ _ => ⟨0, by decide, rfl⟩) (le_refl 1)⟩

theorem makeNodeResourcesNetwork_trace (host : Host) (cfg : Config) (node : Node) (w : World) :
    ∃ extra address, (makeNodeResourcesNetwork host cfg node w).trace = w.trace ++ extra ∧
      commandsOf extra = provisionCommands node address := by
  refine ⟨[Event.command ("ip link add " ++ node.Device ++ " type dummy"),
    Event.mac (host.generateMac (w.trace ++
      [Event.command ("ip link add " ++ node.Device ++ " type dummy")])),
    Event.command ("ip link set dev " ++ node.Device ++ " address " ++
      host.generateMac (w.trace ++
        [Event.command ("ip link add " ++ node.Device ++ " type dummy")])),
    Event.command ("ip addr add " ++ node.Ip ++ "/24 brd + dev " ++ node.Device ++
      " label " ++ node.Device ++ ":0"),
    Event.command ("ip link set dev " ++ node.Device ++ " up")],
    host.generateMac (w.trace ++
      [Event.command ("ip link add " ++ node.Device ++ " type dummy")]), ?_, ?_⟩
  · simp [makeNodeResourcesNetwork, runCommand, World.emit]
  · rfl

theorem makeNodeResources_trace (host : Host) (cfg : Config) (node : Node) (w : World) :
    ∃ extra address, (makeNodeResources host cfg node w).trace = w.trace ++ extra ∧
      commandsOf extra =
        resourceScript cfg node (host.commandContains w.trace "ip a" node.Ip) address ∧
      extra.getLast? = some (Event.command ("mkdir -p " ++ node.Dir)) := by
  unfold makeNodeResources resourceScript
  cases hfound : host.commandContains w.trace "ip a" node.Ip
  · obtain ⟨e, a, ht, hc⟩ := makeNodeResourcesNetwork_trace host cfg node
      (w.emit (Event.probe "ip a" node.Ip false))
    refine ⟨(Event.probe "ip a" node.Ip false :: e) ++
      [Event.command ("mkdir -p " ++ node.Dir)], a, ?_, ?_, List.getLast?_concat _⟩
    · simp only [runCommand, World.emit] at ht ⊢
      simp [ht]
    · simp [commandsOf, commandsOf_append, hc]
  · cases hp : cfg.Persist
    · obtain ⟨r, hr, hrc⟩ := cleanNodeResources_trace cfg node
        (w.emit (Event.probe "ip a" node.Ip true))
      obtain ⟨e, a, ht, hc⟩ := makeNodeResourcesNetwork_trace host cfg node
        (cleanNodeResources cfg node (w.emit (Event.probe "ip a" node.Ip true)))
      refine ⟨(Event.probe "ip a" node.Ip true :: (r ++ e)) ++
        [Event.command ("mkdir -p " ++ node.Dir)], a, ?_, ?_, List.getLast?_concat _⟩
      · rw [hr] at ht
        simp only [runCommand, World.emit] at ht ⊢
        simp [ht]
      · simp [commandsOf, commandsOf_append, hc, hrc]
    · refine ⟨[Event.probe "ip a" node.Ip true] ++
        [Event.command ("mkdir -p " ++ node.Dir)], "", ?_, ?_, List.getLast?_concat _⟩
      · simp [runCommand, World.emit]
      · simp [commandsOf]

/-- C8: when `makeNodeResources` is called twice in a row for a node and the
address probe of the second call reports the address in use, the second call
issues, without persistence, the release sequence of `cleanNodeResources`
(addr del, link delete, rm -rf Dir) and then the provisioning sequence (link
add, set MAC, addr add Ip/24, link up), so the device is deleted before it is
created again; with persistence it issues no interface command at all; and
each of the two calls ends with `mkdir -p <Dir>`. -/
theorem makeNodeResources_twice (host : Host) (cfg : Config) (node : Node) (w : World)
    (hbusy : host.commandContains (makeNodeResources host cfg node w).trace "ip a" node.Ip
      = true) :
    ∃ e1 e2 a1 a2,
      (makeNodeResources host cfg node w).trace = w.trace ++ e1 ∧
      (makeNodeResources host cfg node (makeNodeResources host cfg node w)).trace
        = (makeNodeResources host cfg node w).trace ++ e2 ∧
      commandsOf e1 =
        resourceScript cfg node (host.commandContains w.trace "ip a" node.Ip) a1 ∧
      commandsOf e2 =
        (if cfg.Persist then []
          else releaseCommands node ++ provisionCommands node a2) ++
          ["mkdir -p " ++ node.Dir] ∧
      e1.getLast? = some (Event.command ("mkdir -p " ++ node.Dir)) ∧
      e2.getLast? = some (Event.command ("mkdir -p " ++ node.Dir)) := by
  obtain ⟨e1, a1, ht1, hc1, hl1⟩ := makeNodeResources_trace host cfg node w
  obtain ⟨e2, a2, ht2, hc2, hl2⟩ :=
    makeNodeResources_trace host cfg node (makeNodeResources host cfg node w)
  rw [hbusy] at hc2
  exact ⟨e1, e2, a1, a2, ht1, ht2, hc1, by simpa [resourceScript] using hc2, hl1, hl2⟩

/-- Witness for C8: two calls for the example server node without persistence
on a host that reports an address in use once a command has bound it. -/
theorem makeNodeResources_twice_witness :
    trackingHost.commandContains
        (makeNodeResources trackingHost exampleConfig exampleNode emptyWorld).trace
        "ip a" exampleNode.Ip = true ∧
    ∃ e1 e2 a1 a2,
      (makeNodeResources trackingHost exampleConfig exampleNode emptyWorld).trace
        = emptyWorld.trace ++ e1 ∧
      (makeNodeResources trackingHost exampleConfig exampleNode
          (makeNodeResources trackingHost exampleConfig exampleNode emptyWorld)).trace
        = (makeNodeResources trackingHost exampleConfig exampleNode emptyWorld).trace ++ e2 ∧
      commandsOf e1 =
        resourceScript exampleConfig exampleNode
          (trackingHost.commandContains emptyWorld.trace "ip a" exampleNode.Ip) a1 ∧
      commandsOf e2 =
        (if exampleConfig.Persist then []
          else releaseCommands exampleNode ++ provisionCommands exampleNode a2) ++
          ["mkdir -p " ++ exampleNode.Dir] ∧
      e1.getLast? = some (Event.command ("mkdir -p " ++ exampleNode.Dir)) ∧
      e2.getLast? = some (Event.command ("mkdir -p " ++ exampleNode.Dir)) :=
  ⟨by decide, makeNodeResources_twice trackingHost exampleConfig exampleNode emptyWorld
    (by decide)⟩


theorem spawnsOf_append (a b : List Event) :
    spawnsOf (a ++ b) = spawnsOf a ++ spawnsOf b := by
  induction a with
  | nil => rfl
  | cons e rest ih => cases e <;> simp [spawnsOf, ih]

theorem actionsOf_append (a b : List Event) :
    actionsOf (a ++ b) = actionsOf a ++ actionsOf b := by
  induction a with
  | nil => rfl
  | cons e rest ih => cases e <;> simp [actionsOf, ih]

theorem actionsOf_of_no_spawn (l : List Event) (h : spawnsOf l = []) :
    actionsOf l = (commandsOf l).map Action.ran := by
  induction l with
  | nil => rfl
  | cons e rest ih =>
    cases e <;> simp_all [actionsOf, commandsOf, spawnsOf]

theorem makeNodeResources_spawns (host : Host) (cfg : Config) (node : Node) (w : World) :
    spawnsOf (makeNodeResources host cfg node w).trace = spawnsOf w.trace := by
  unfold makeNodeResources
  cases host.commandContains w.trace "ip a" node.Ip <;> cases cfg.Persist <;>
    simp [makeNodeResourcesNetwork, cleanNodeResources, runCommand, World.emit,
      spawnsOf_append, spawnsOf]

theorem makeNodeResources_actions (host : Host) (cfg : Config) (node : Node) (w : World) :
    ∃ extra found address, (makeNodeResources host cfg node w).trace = w.trace ++ extra ∧
      actionsOf extra = (resourceScript cfg node found address).map Action.ran ∧
      spawnsOf extra = [] := by
  obtain ⟨extra, address, ht, hc, -⟩ := makeNodeResources_trace host cfg node w
  have hs := makeNodeResources_spawns host cfg node w
  rw [ht, spawnsOf_append] at hs
  have hnil : spawnsOf extra = [] := by simpa using hs
  exact ⟨extra, _, address, ht, by rw [actionsOf_of_no_spawn extra hnil, hc], hnil⟩

theorem appendJoins_eq (nodes : List Node) (nomad : String) :
    appendJoins nodes nomad = nomad ++ joinFlags nodes := by
  unfold appendJoins
  induction nodes generalizing nomad with
  | nil => simp [joinFlags]
  | cons node rest ih =>
    simp only [List.foldl_cons, joinFlags]
    rw [ih]
    cases node.Server <;> simp [String.append_assoc]

theorem joinFlags_map_withoutPid (nodes : List Node) :
    joinFlags (nodes.map withoutPid) = joinFlags nodes := by
  induction nodes with
  | nil => rfl
  | cons node rest ih => simp [joinFlags, ih, withoutPid]

theorem appendServers_map_withoutPid (nodes : List Node) (nomad : String) :
    appendServers (nodes.map withoutPid) nomad = appendServers nodes nomad := by
  unfold appendServers
  rw [List.foldl_map]
  rfl

theorem agentCommand_withoutPid (cfg : Config) (nodes : List Node) (node : Node) :
    agentCommand cfg (nodes.map withoutPid) (withoutPid node) = agentCommand cfg nodes node := by
  unfold agentCommand serverCommand clientCommand
  simp only [appendJoins_eq, joinFlags_map_withoutPid, appendServers_map_withoutPid]
  rfl

theorem buildNode_step (host : Host) (cfg : Config) (i : Nat) (cur : List Node) (w : World)
    (node : Node) (hnode : cur[i]? = some node) :
    ∃ extra found address pid,
      (buildNode host cfg i cur w).2.trace = w.trace ++ extra ∧
      actionsOf extra = (resourceScript cfg node found address).map Action.ran ++
        [Action.started (agentCommand cfg cur node)] ∧
      spawnsOf extra = [agentCommand cfg cur node] ∧
      (buildNode host cfg i cur w).1 = cur.set i { node with Pid := pid } := by
  obtain ⟨e, found, address, ht, ha, hs⟩ := makeNodeResources_actions host cfg node
    (w.emit (Event.print (" - Starting " ++ node.Name ++ "\n")))
  unfold buildNode
  simp only [hnode]
  cases hrole : node.Server
  · refine ⟨Event.print (" - Starting " ++ node.Name ++ "\n") :: (e ++
        [Event.spawn (clientCommand cfg cur node)
          (host.process (makeNodeResources host cfg node
            (w.emit (Event.print (" - Starting " ++ node.Name ++ "\n")))).trace
            (clientCommand cfg cur node))]), found, address, _, ?_, ?_, ?_, rfl⟩
    · simp only [Bool.false_eq_true, if_false, World.emit] at ht ⊢
      simp [ht]
    · simp [actionsOf, actionsOf_append, ha, agentCommand, hrole]
    · simp [spawnsOf, spawnsOf_append, hs, agentCommand, hrole]
  · refine ⟨Event.print (" - Starting " ++ node.Name ++ "\n") :: (e ++
        [Event.spawn (serverCommand cfg cur node)
          (host.process (makeNodeResources host cfg node
            (w.emit (Event.print (" - Starting " ++ node.Name ++ "\n")))).trace
            (serverCommand cfg cur node)), Event.sleep 3]), found, address, _, ?_, ?_, ?_, rfl⟩
    · simp only [if_true, World.emit] at ht ⊢
      simp [ht]
    · simp [actionsOf, actionsOf_append, ha, agentCommand, hrole]
    · simp [spawnsOf, spawnsOf_append, hs, agentCommand, hrole]

theorem map_withoutPid_set (cur : List Node) (i : Nat) (node : Node) (pid : Int)
    (hnode : cur[i]? = some node) :
    (cur.set i { node with Pid := pid }).map withoutPid = cur.map withoutPid := by
  apply List.ext_getElem?
  intro j
  rw [List.getElem?_map, List.getElem?_map, List.getElem?_set]
  by_cases hij : i = j
  · subst hij
    have hlt : i < cur.length := (List.getElem?_eq_some_iff.mp hnode).1
    simp [hlt, hnode, withoutPid]
  · simp [hij]

theorem buildLoop_trace (host : Host) (cfg : Config) (orig : List Node) :
    ∀ (rest : List Node) (i : Nat) (cur : List Node) (w : World),
      orig.drop i = rest → cur.map withoutPid = orig.map withoutPid →
      ∃ extra answers,
        (buildLoop host cfg rest.length i cur w).2.trace = w.trace ++ extra ∧
        answers.length = rest.length ∧
        actionsOf extra = buildScript cfg orig (rest.zip answers) ∧
        spawnsOf extra = rest.map (agentCommand cfg orig) := by
  intro rest
  induction rest with
  | nil =>
    intro i cur w _ _
    exact ⟨[], [], by simp [buildLoop], rfl, rfl, rfl⟩
  | cons node tail ih =>
    intro i cur w hdrop hsame
    have hi : i < orig.length := by
      by_contra hge
      rw [List.drop_eq_nil_of_le (by omega)] at hdrop
      exact List.noConfusion hdrop
    have horig : orig[i]? = some node := by
      have := congrArg List.head? hdrop
      rw [List.head?_drop] at this
      simpa using this
    have htail : orig.drop (i + 1) = tail := by
      have := congrArg List.tail hdrop
      simpa [List.tail_drop] using this
    have hcurlen : cur.length = orig.length := by
      have := congrArg List.length hsame
      simpa using this
    have hcur : cur[i]? = some (cur[i]) := List.getElem?_eq_getElem (by omega)
    have hunpid : withoutPid (cur[i]) = withoutPid node := by
      have h1 := congrArg (fun l => l[i]?) hsame
      simp only [List.getElem?_map, hcur, horig, Option.map_some'] at h1
      exact Option.some.inj h1
    obtain ⟨e1, found, address, pid, ht1, ha1, hs1, hset⟩ :=
      buildNode_step host cfg i cur w (cur[i]) hcur
    have hsame2 : (buildNode host cfg i cur w).1.map withoutPid = orig.map withoutPid := by
      rw [hset, map_withoutPid_set cur i _ pid hcur, hsame]
    obtain ⟨e2, answers, ht2, hlen2, ha2, hs2⟩ :=
      ih (i + 1) (buildNode host cfg i cur w).1 (buildNode host cfg i cur w).2 htail hsame2
    have hcmd : agentCommand cfg cur (cur[i]) = agentCommand cfg orig node := by
      rw [← agentCommand_withoutPid cfg cur, ← agentCommand_withoutPid cfg orig, hsame, hunpid]
    have hscript : resourceScript cfg (cur[i]) found address
        = resourceScript cfg node found address := by
      have h1 : (cur[i]).Ip = node.Ip := by
        have := congrArg (fun n : Node => n.Ip) hunpid
        simpa [withoutPid] using this
      have h2 : (cur[i]).Device = node.Device := by
        have := congrArg (fun n : Node => n.Device) hunpid
        simpa [withoutPid] using this
      have h3 : (cur[i]).Dir = node.Dir := by
        have := congrArg (fun n : Node => n.Dir) hunpid
        simpa [withoutPid] using this
      simp only [resourceScript, releaseCommands, provisionCommands, h1, h2, h3]
    refine ⟨e1 ++ e2, (found, address) :: answers, ?_, by simp [hlen2], ?_, ?_⟩
    · simp only [List.length_cons, buildLoop]
      rw [ht2, ht1, List.append_assoc]
    · rw [actionsOf_append, ha1, ha2, hcmd, hscript]
      simp [buildScript, List.zip]
    · rw [spawnsOf_append, hs1, hs2, hcmd]
      rfl

theorem BuildNodes_trace (host : Host) (cfg : Config) (nodes : List Node) (w : World) :
    ∃ extra answers,
      (BuildNodes host cfg nodes w).2.trace = w.trace ++ extra ∧
      answers.length = nodes.length ∧
      actionsOf extra = buildScript cfg nodes (nodes.zip answers) ∧
      spawnsOf extra = nodes.map (agentCommand cfg nodes) := by
  obtain ⟨e, answers, ht, hlen, ha, hs⟩ := buildLoop_trace host cfg nodes nodes 0 nodes
    (w.emit (Event.print "Building Nodes...\n")) rfl rfl
  refine ⟨Event.print "Building Nodes...\n" :: e, answers, ?_, hlen, ?_, ?_⟩
  · unfold BuildNodes
    rw [ht]
    simp [World.emit]
  · simpa [actionsOf] using ha
  · simpa [spawnsOf] using hs

theorem builtList_server (cfg : Config) (server : Bool) (rp : String) :
    ∀ (count k m : Nat) (node : Node),
      node ∈ builtList cfg server rp count k m → node.Server = server := by
  intro count
  induction count with
  | zero => intro k m node h; simp [builtList] at h
  | succ n ih =>
    intro k m node h
    simp only [builtList, List.mem_cons] at h
    rcases h with h | h
    · rw [h]; rfl
    · exact ih _ _ _ h

theorem freshNodes_take (cfg : Config) (s c : Nat) :
    (freshNodes cfg s c).take s = builtList cfg true cfg.ServerPrefix s 0 0 := by
  unfold freshNodes
  exact List.take_left' (builtList_length _ _ _ _ _ _)

theorem freshNodes_drop (cfg : Config) (s c : Nat) :
    (freshNodes cfg s c).drop s = builtList cfg false cfg.ClientPrefix c 0 s := by
  unfold freshNodes
  exact List.drop_left' (builtList_length _ _ _ _ _ _)

/-- C4: for every registry, the commands run and processes started by
`BuildNodes` are, node after node in registry order, the commands of that
node's `makeNodeResources`, the last of which is `mkdir -p <Dir>`, followed by
the start of that node's agent.  For a registry freshly built by `MakeNodes`
with `s` servers and `c` clients, the processes started are those of the `s`
server nodes, in order, followed by those of the `c` client nodes. -/
theorem BuildNodes_order (host : Host) (cfg : Config) :
    (∀ (nodes : List Node) (w : World), ∃ extra answers,
      (BuildNodes host cfg nodes w).2.trace = w.trace ++ extra ∧
      answers.length = nodes.length ∧
      actionsOf extra = buildScript cfg nodes (nodes.zip answers)) ∧
    (∀ (w : World) (s c : Nat), cfg.Import = false → cfg.Servers = s → cfg.Clients = c →
      s + c ≤ cfg.Ips.length → (cfg.Ips.length : Int) < 2 ^ 63 →
      ∃ nodes w1 extra, MakeNodes host cfg w = Outcome.returned nodes w1 ∧
        (BuildNodes host cfg nodes w1).2.trace = w1.trace ++ extra ∧
        spawnsOf extra = (nodes.take s).map (serverCommand cfg nodes) ++
          (nodes.drop s).map (clientCommand cfg nodes) ∧
        (nodes.take s).length = s ∧ (nodes.drop s).length = c ∧
        (∀ node ∈ nodes.take s, node.Server = true) ∧
        (∀ node ∈ nodes.drop s, node.Server = false)) := by
  constructor
  · intro nodes w
    obtain ⟨extra, answers, ht, hlen, ha, -⟩ := BuildNodes_trace host cfg nodes w
    exact ⟨extra, answers, ht, hlen, ha⟩
  · intro w s c himp hs hc hpool hrep
    obtain ⟨w1, -, hrun⟩ := MakeNodes_fresh host cfg w s c himp hs hc hpool hrep
    obtain ⟨extra, answers, ht, -, -, hsp⟩ := BuildNodes_trace host cfg (freshNodes cfg s c)
      (if cfg.Export then exportNodes host cfg (freshNodes cfg s c) w1 else w1)
    have hservers : ∀ node ∈ (freshNodes cfg s c).take s, node.Server = true := by
      intro node hmem
      rw [freshNodes_take] at hmem
      exact builtList_server _ _ _ _ _ _ _ hmem
    have hclients : ∀ node ∈ (freshNodes cfg s c).drop s, node.Server = false := by
      intro node hmem
      rw [freshNodes_drop] at hmem
      exact builtList_server _ _ _ _ _ _ _ hmem
    refine ⟨_, _, extra, hrun, ht, ?_, ?_, ?_, hservers, hclients⟩
    · rw [hsp]
      conv_lhs => rw [← List.take_append_drop s (freshNodes cfg s c)]
      rw [List.map_append]
      congr 1
      · apply List.map_congr_left
        intro node hmem
        simp [agentCommand, hservers node hmem]
      · apply List.map_congr_left
        intro node hmem
        simp [agentCommand, hclients node hmem]
    · rw [freshNodes_take, builtList_length]
    · rw [freshNodes_drop, builtList_length]

/-- Witness for C4 on the example topology. -/
theorem BuildNodes_order_witness :
    (exampleConfig.Import = false ∧ exampleConfig.Servers = ((1 : Nat) : Int) ∧
      exampleConfig.Clients = ((2 : Nat) : Int) ∧ 1 + 2 ≤ exampleConfig.Ips.length ∧
      (exampleConfig.Ips.length : Int) < 2 ^ 63) ∧
    ∃ nodes w1 extra, MakeNodes idleHost exampleConfig emptyWorld = Outcome.returned nodes w1 ∧
      (BuildNodes idleHost exampleConfig nodes w1).2.trace = w1.trace ++ extra ∧
      spawnsOf extra = (nodes.take 1).map (serverCommand exampleConfig nodes) ++
        (nodes.drop 1).map (clientCommand exampleConfig nodes) ∧
      (nodes.take 1).length = 1 ∧ (nodes.drop 1).length = 2 ∧
      (∀ node ∈ nodes.take 1, node.Server = true) ∧
      (∀ node ∈ nodes.drop 1, node.Server = false) :=
  ⟨⟨rfl, rfl, rfl, by decide, by norm_num [exampleConfig]⟩,
    (BuildNodes_order idleHost exampleConfig).2 emptyWorld 1 2 rfl rfl rfl (by decide)
      (by norm_num [exampleConfig])⟩

theorem joinFlags_eq_concat (nodes : List Node) :
    joinFlags nodes = concatStrings (joinFlagList nodes) := by
  induction nodes with
  | nil => rfl
  | cons node rest ih =>
    unfold joinFlagList serversOf at ih ⊢
    cases hrole : node.Server
    · simp [joinFlags, hrole, ih]
    · simp [joinFlags, hrole, ih, concatStrings]

theorem serversOf_freshNodes (cfg : Config) (s c : Nat) :
    serversOf (freshNodes cfg s c) = builtList cfg true cfg.ServerPrefix s 0 0 := by
  unfold serversOf freshNodes
  rw [List.filter_append]
  have h1 : (builtList cfg true cfg.ServerPrefix s 0 0).filter (fun node => node.Server)
      = builtList cfg true cfg.ServerPrefix s 0 0 := by
    rw [List.filter_eq_self]
    intro node hmem
    exact builtList_server _ _ _ _ _ _ _ hmem
  have h2 : (builtList cfg false cfg.ClientPrefix c 0 s).filter (fun node => node.Server)
      = [] := by
    rw [List.filter_eq_nil_iff]
    intro node hmem
    simp [builtList_server _ _ _ _ _ _ _ hmem]
  rw [h1, h2, List.append_nil]

theorem builtList_ips (cfg : Config) (s : Nat) (hs : s ≤ cfg.Ips.length) :
    (builtList cfg true cfg.ServerPrefix s 0 0).map (fun node => node.Ip) = cfg.Ips.take s := by
  apply List.ext_getElem?
  intro i
  rw [List.getElem?_map]
  by_cases hi : i < s
  · have hlen : i < cfg.Ips.length := by omega
    rw [builtList_getElem? _ _ _ _ _ _ _ hi, List.getElem?_take_of_lt hi]
    simp [builtNode, List.getElem?_eq_getElem hlen]
  · rw [List.getElem?_eq_none (by simp [builtList_length]; omega),
      List.getElem?_eq_none (by simp; omega)]
    rfl

/-- C5: in a build of a registry freshly made for `s` servers, the command
line started for the server node at each position `i < s` is the binary with
` agent `, the node name, the bind address, ` -bootstrap-expect=` with
`decimal(s)`, the data directory, the datacenter, then the ` -join=` flags,
then the device, the region and ` -server`.  The ` -join=` flags are exactly
`s`: one per server node of the registry in registry order, each with that
node's address, which are the first `s` pool entries; no client contributes
one. -/
theorem BuildNodes_server_command (host : Host) (cfg : Config) (w : World) (s c : Nat)
    (himp : cfg.Import = false) (hs : cfg.Servers = s) (hc : cfg.Clients = c)
    (hpool : s + c ≤ cfg.Ips.length) (hrep : (cfg.Ips.length : Int) < 2 ^ 63) :
    ∃ nodes w1 extra, MakeNodes host cfg w = Outcome.returned nodes w1 ∧
      (BuildNodes host cfg nodes w1).2.trace = w1.trace ++ extra ∧
      (joinFlagList nodes).length = s ∧
      joinFlagList nodes = (cfg.Ips.take s).map (fun ip => " -join=" ++ ip) ∧
      serversOf nodes = nodes.take s ∧
      ∀ (i : Nat) (node : Node), i < s → nodes[i]? = some node →
        (spawnsOf extra)[i]? = some
          (node.Binary ++ " agent " ++ (" -node=" ++ node.Name) ++ (" -bind=" ++ node.Ip) ++
            (" -bootstrap-expect=" ++ Itoa s) ++ (" -data-dir=" ++ node.Dir) ++
            (" -dc=" ++ node.Dc) ++ concatStrings (joinFlagList nodes) ++
            (" -network-interface=" ++ node.Device) ++ (" -region=" ++ node.Region) ++
            " -server") := by
  obtain ⟨w1, -, hrun⟩ := MakeNodes_fresh host cfg w s c himp hs hc hpool hrep
  obtain ⟨extra, answers, ht, -, -, hsp⟩ := BuildNodes_trace host cfg (freshNodes cfg s c)
    (if cfg.Export then exportNodes host cfg (freshNodes cfg s c) w1 else w1)
  have hflags : joinFlagList (freshNodes cfg s c)
      = (cfg.Ips.take s).map (fun ip => " -join=" ++ ip) := by
    unfold joinFlagList
    rw [serversOf_freshNodes, ← builtList_ips cfg s (by omega), List.map_map]
    rfl
  refine ⟨_, _, extra, hrun, ht, ?_, hflags, ?_, ?_⟩
  · rw [hflags, List.length_map, List.length_take]
    omega
  · rw [serversOf_freshNodes, freshNodes_take]
  · intro i node hi hnode
    have hserver : node.Server = true := by
      rw [freshNodes_server cfg s c i hi] at hnode
      cases hnode
      rfl
    rw [hsp, List.getElem?_map, hnode]
    simp only [Option.map_some', agentCommand, hserver, if_true, serverCommand,
      appendJoins_eq, joinFlags_eq_concat, hs]

/-- Witness for C5: with two servers and a client, the command line of the
first server holds `-bootstrap-expect=2` and the two flags `-join=10.0.0.1` and
`-join=10.0.0.2`. -/
theorem BuildNodes_server_command_witness :
    (twoServerConfig.Import = false ∧ twoServerConfig.Servers = ((2 : Nat) : Int) ∧
      twoServerConfig.Clients = ((1 : Nat) : Int) ∧ 2 + 1 ≤ twoServerConfig.Ips.length ∧
      (twoServerConfig.Ips.length : Int) < 2 ^ 63) ∧
    (∃ nodes w1 extra,
      MakeNodes idleHost twoServerConfig emptyWorld = Outcome.returned nodes w1 ∧
      (BuildNodes idleHost twoServerConfig nodes w1).2.trace = w1.trace ++ extra ∧
      (joinFlagList nodes).length = 2 ∧
      joinFlagList nodes = (twoServerConfig.Ips.take 2).map (fun ip => " -join=" ++ ip) ∧
      serversOf nodes = nodes.take 2 ∧
      ∀ (i : Nat) (node : Node), i < 2 → nodes[i]? = some node →
        (spawnsOf extra)[i]? = some
          (node.Binary ++ " agent " ++ (" -node=" ++ node.Name) ++ (" -bind=" ++ node.Ip) ++
            (" -bootstrap-expect=" ++ Itoa (2 : Nat)) ++ (" -data-dir=" ++ node.Dir) ++
            (" -dc=" ++ node.Dc) ++ concatStrings (joinFlagList nodes) ++
            (" -network-interface=" ++ node.Device) ++ (" -region=" ++ node.Region) ++
            " -server")) ∧
    (spawnsOf (BuildNodes idleHost twoServerConfig (freshNodes twoServerConfig 2 1)
        emptyWorld).2.trace)[0]? = some
      ("nomad agent  -node=sim-server0 -bind=10.0.0.1 -bootstrap-expect=2" ++
        " -data-dir=/tmp/sim/sim-server0 -dc=dc1 -join=10.0.0.1 -join=10.0.0.2" ++
        " -network-interface=sim-eth0 -region=global -server") :=
  ⟨⟨rfl, rfl, rfl, by decide, by norm_num [twoServerConfig]⟩,
    BuildNodes_server_command idleHost twoServerConfig emptyWorld 2 1 rfl rfl rfl (by decide)
    (by norm_num [twoServerConfig]), by rfl⟩

theorem unmarshalNode_marshalNode (node : Node) :
    unmarshalNode (marshalNode node) = (withoutPid node, true) := by
  have k1 : foldKey "Server" = "server" := by decide
  have k2 : foldKey "Binary" = "binary" := by decide
  have k3 : foldKey "Name" = "name" := by decide
  have k4 : foldKey "Region" = "region" := by decide
  have k5 : foldKey "Dc" = "dc" := by decide
  have k6 : foldKey "Ip" = "ip" := by decide
  have k7 : foldKey "Device" = "device" := by decide
  have k8 : foldKey "Dir" = "dir" := by decide
  simp [unmarshalNode, marshalNode, unmarshalMembers, unmarshalMember, decodeBool,
    decodeString, zeroNode, withoutPid, k1, k2, k3, k4, k5, k6, k7, k8]

theorem unmarshalNodes_marshalNodes (nodes : List Node) :
    unmarshalNodes (marshalNodes nodes) = (nodes.map withoutPid, true) := by
  simp [unmarshalNodes, marshalNodes, List.map_map, Function.comp_def,
    unmarshalNode_marshalNode]

theorem importNodes_exportNodes (host : Host) (cfg : Config) (r : List Node) (w w2 : World)
    (hwrite : host.writeFileOk w.trace (cfg.Directory ++ "/nodes.json") = true)
    (hfile : w2.files (cfg.Directory ++ "/nodes.json")
      = (exportNodes host cfg r w).files (cfg.Directory ++ "/nodes.json")) :
    (importNodes cfg w2).1 = r.map withoutPid := by
  have hstored : w2.files (cfg.Directory ++ "/nodes.json")
      = some (FileData.json (marshalNodes r)) := by
    rw [hfile]
    simp [exportNodes, hwrite]
  simp [importNodes, hstored, importDecode, unmarshalNodes_marshalNodes]

theorem decodeRune_encodeRune (v : Nat) (rest : List Nat)
    (hv : v < 0xD800 ∨ (0xDFFF < v ∧ v < 0x110000)) :
    decodeRune (encodeRune v ++ rest) = some (v, rest) := by
  unfold encodeRune
  by_cases h1 : v < 0x80
  · simp [h1, decodeRune]
  · by_cases h2 : v < 0x800
    · have a1 : ¬ (0xC0 + v / 64 < 0x80) := by omega
      have a2 : 0xC2 ≤ 0xC0 + v / 64 ∧ 0xC0 + v / 64 ≤ 0xDF := by omega
      have a3 : 0x80 ≤ 0x80 + v % 64 ∧ 0x80 + v % 64 ≤ 0xBF := by omega
      have a4 : (0xC0 + v / 64 - 0xC0) * 64 + (0x80 + v % 64 - 0x80) = v := by omega
      simp only [h1, h2, if_false, if_true, List.cons_append, List.nil_append, decodeRune,
        a1, a2, a3, a4, and_self]
    · by_cases h3 : v < 0x10000
      · have a1 : ¬ (0xE0 + v / 4096 < 0x80) := by omega
        have a2 : ¬ (0xC2 ≤ 0xE0 + v / 4096 ∧ 0xE0 + v / 4096 ≤ 0xDF) := by omega
        have a3 : 0xE0 ≤ 0xE0 + v / 4096 ∧ 0xE0 + v / 4096 ≤ 0xEF := by omega
        have a4 : secondLow (0xE0 + v / 4096) ≤ 0x80 + v / 64 % 64 ∧
            0x80 + v / 64 % 64 ≤ secondHigh (0xE0 + v / 4096) ∧
            0x80 ≤ 0x80 + v % 64 ∧ 0x80 + v % 64 ≤ 0xBF := by
          unfold secondLow secondHigh
          split_ifs <;> omega
        have a5 : (0xE0 + v / 4096 - 0xE0) * 4096 + (0x80 + v / 64 % 64 - 0x80) * 64 +
            (0x80 + v % 64 - 0x80) = v := by omega
        simp only [h1, h2, h3, if_false, if_true, List.cons_append, List.nil_append,
          decodeRune, a1, a2, a3, a4, a5, and_self]
      · have a1 : ¬ (0xF0 + v / 262144 < 0x80) := by omega
        have a2 : ¬ (0xC2 ≤ 0xF0 + v / 262144 ∧ 0xF0 + v / 262144 ≤ 0xDF) := by omega
        have a3 : ¬ (0xE0 ≤ 0xF0 + v / 262144 ∧ 0xF0 + v / 262144 ≤ 0xEF) := by omega
        have a4 : 0xF0 ≤ 0xF0 + v / 262144 ∧ 0xF0 + v / 262144 ≤ 0xF4 := by omega
        have a5 : secondLow (0xF0 + v / 262144) ≤ 0x80 + v / 4096 % 64 ∧
            0x80 + v / 4096 % 64 ≤ secondHigh (0xF0 + v / 262144) ∧
            0x80 ≤ 0x80 + v / 64 % 64 ∧ 0x80 + v / 64 % 64 ≤ 0xBF ∧
            0x80 ≤ 0x80 + v % 64 ∧ 0x80 + v % 64 ≤ 0xBF := by
          unfold secondLow secondHigh
          split_ifs <;> omega
        have a6 : (0xF0 + v / 262144 - 0xF0) * 262144 + (0x80 + v / 4096 % 64 - 0x80) * 4096 +
            (0x80 + v / 64 % 64 - 0x80) * 64 + (0x80 + v % 64 - 0x80) = v := by omega
        simp only [h1, h2, h3, if_false, if_true, List.cons_append, List.nil_append,
          decodeRune, a1, a2, a3, a4, a5, a6, and_self]

theorem encodeRune_cons (v : Nat) : ∃ b0 tail, encodeRune v = b0 :: tail := by
  unfold encodeRune
  split_ifs <;> exact ⟨_, _, rfl⟩

theorem char_scalar (ch : Char) :
    ch.toNat < 0xD800 ∨ (0xDFFF < ch.toNat ∧ ch.toNat < 0x110000) := ch.valid

theorem coerceRunes_utf8Runes :
    ∀ (chars : List Char) (fuel : Nat), (utf8Runes chars).length ≤ fuel →
      coerceRunes fuel (utf8Runes chars) = chars := by
  intro chars
  induction chars with
  | nil => intro fuel _; cases fuel <;> rfl
  | cons ch rest ih =>
    intro fuel hfuel
    obtain ⟨b0, tail, hb⟩ := encodeRune_cons ch.toNat
    have hdec := decodeRune_encodeRune ch.toNat (utf8Runes rest) (char_scalar ch)
    simp only [utf8Runes] at hfuel ⊢
    rw [hb] at hdec hfuel ⊢
    cases fuel with
    | zero => simp at hfuel
    | succ f =>
      simp only [List.cons_append] at hdec hfuel ⊢
      simp only [coerceRunes, hdec, Char.ofNat_toNat]
      rw [ih f (by simp only [List.length_cons, List.length_append] at hfuel; omega)]

theorem toText_utf8Bytes (text : String) : toText (utf8Bytes text) = text := by
  unfold toText utf8Bytes
  rw [coerceRunes_utf8Runes text.data _ (le_refl _)]

theorem utf8Bytes_toText (bytes : List Nat) (h : IsUTF8 bytes) :
    utf8Bytes (toText bytes) = bytes := by
  obtain ⟨text, rfl⟩ := h
  rw [toText_utf8Bytes]

theorem asBytes_withoutPid_asText (node : GoNode) (h : node.IsUTF8) :
    (withoutPid node.asText).asBytes = { node with Pid := 0 } := by
  obtain ⟨h1, h2, h3, h4, h5, h6, h7⟩ := h
  simp only [GoNode.asText, withoutPid, Node.asBytes, utf8Bytes_toText _ h1,
    utf8Bytes_toText _ h2, utf8Bytes_toText _ h3, utf8Bytes_toText _ h4,
    utf8Bytes_toText _ h5, utf8Bytes_toText _ h6, utf8Bytes_toText _ h7]

/-- C6 as stated fails: a registry whose one node is named by the single byte
0xFF, which is not UTF-8, comes back from export and import with the name
0xEF 0xBF 0xBD, the UTF-8 bytes of U+FFFD; so the two registries differ in a
field other than `Pid`. -/
theorem roundtrip_changes_invalid_utf8 :
    idleHost.writeFileOk emptyWorld.trace (exampleConfig.Directory ++ "/nodes.json") = true ∧
    brokenRegistry.map GoNode.Name = [[0xFF]] ∧
    (importNodesBytes exampleConfig
      (exportNodesBytes idleHost exampleConfig brokenRegistry emptyWorld)).1.map GoNode.Name
      = [[0xEF, 0xBF, 0xBD]] ∧
    (importNodesBytes exampleConfig
      (exportNodesBytes idleHost exampleConfig brokenRegistry emptyWorld)).1.map
        GoNode.withoutPid
      ≠ brokenRegistry.map GoNode.withoutPid := by
  refine ⟨rfl, rfl, by decide, by decide⟩

/-- C6, amended: for every registry `r` whose strings are all valid UTF-8, once
`exportNodes` has written the snapshot of `r`, an `importNodes` that finds
this snapshot in the file returns a registry of the same length whose node at
each position is the node of `r` with `Pid` set to 0 and every other field
unchanged; so both registries agree once `Pid` is dropped. -/
theorem import_export_roundtrip_utf8 (host : Host) (cfg : Config) (r : List GoNode)
    (w w2 : World) (hvalid : ∀ node ∈ r, node.IsUTF8)
    (hwrite : host.writeFileOk w.trace (cfg.Directory ++ "/nodes.json") = true)
    (hfile : w2.files (cfg.Directory ++ "/nodes.json")
      = (exportNodesBytes host cfg r w).files (cfg.Directory ++ "/nodes.json")) :
    (importNodesBytes cfg w2).1 = r.map (fun node => { node with Pid := 0 }) ∧
    (importNodesBytes cfg w2).1.length = r.length ∧
    (∀ node ∈ (importNodesBytes cfg w2).1, node.Pid = 0) ∧
    (importNodesBytes cfg w2).1.map GoNode.withoutPid = r.map GoNode.withoutPid := by
  have himport : (importNodesBytes cfg w2).1 = r.map (fun node => { node with Pid := 0 }) := by
    unfold importNodesBytes
    simp only
    rw [importNodes_exportNodes host cfg (r.map GoNode.asText) w w2 hwrite hfile,
      List.map_map, List.map_map]
    apply List.map_congr_left
    intro node hmem
    exact asBytes_withoutPid_asText node (hvalid node hmem)
  refine ⟨himport, ?_, ?_, ?_⟩
  · rw [himport, List.length_map]
  · intro node hmem
    rw [himport] at hmem
    obtain ⟨a, -, rfl⟩ := List.mem_map.mp hmem
    rfl
  · rw [himport, List.map_map]
    rfl

/-- Witness for C6: the registry of two running agents, whose strings are
ASCII, exported and imported again. -/
theorem import_export_roundtrip_utf8_witness :
    ((∀ node ∈ runningRegistry.map Node.asBytes, node.IsUTF8) ∧
      idleHost.writeFileOk emptyWorld.trace (exampleConfig.Directory ++ "/nodes.json")
        = true) ∧
    ((importNodesBytes exampleConfig (exportNodesBytes idleHost exampleConfig
        (runningRegistry.map Node.asBytes) emptyWorld)).1
      = (runningRegistry.map Node.asBytes).map (fun node => { node with Pid := 0 }) ∧
    (importNodesBytes exampleConfig (exportNodesBytes idleHost exampleConfig
        (runningRegistry.map Node.asBytes) emptyWorld)).1.length
      = (runningRegistry.map Node.asBytes).length ∧
    (∀ node ∈ (importNodesBytes exampleConfig (exportNodesBytes idleHost exampleConfig
        (runningRegistry.map Node.asBytes) emptyWorld)).1, node.Pid = 0) ∧
    (importNodesBytes exampleConfig (exportNodesBytes idleHost exampleConfig
        (runningRegistry.map Node.asBytes) emptyWorld)).1.map GoNode.withoutPid
      = (runningRegistry.map Node.asBytes).map GoNode.withoutPid) :=
  have hvalid : ∀ node ∈ runningRegistry.map Node.asBytes, node.IsUTF8 := by
    intro node hmem
    obtain ⟨text, -, rfl⟩ := List.mem_map.mp hmem
    exact ⟨⟨_, rfl⟩, ⟨_, rfl⟩, ⟨_, rfl⟩, ⟨_, rfl⟩, ⟨_, rfl⟩, ⟨_, rfl⟩, ⟨_, rfl⟩⟩
  ⟨⟨hvalid, rfl⟩,
    import_export_roundtrip_utf8 idleHost exampleConfig (runningRegistry.map Node.asBytes)
      emptyWorld (exportNodesBytes idleHost exampleConfig (runningRegistry.map Node.asBytes)
        emptyWorld) hvalid rfl rfl⟩

end NomadSim
